import Mathlib

/-!
Verification of the Vobiz-X-Pipecat webhook call-control server (`server.py`).

The development shallowly embeds the server's data model and the operations
the specification's claims are about:

* the in-memory call registry `active_calls` (a dict from call UUID to a
  call-record dict) as an association list `Registry`;
* the registry-mutating request handlers `/start` (post-carrier portion),
  `/answer`, `/initiate-transfer`, `/recording-finished`, `/transfer-to-human`
  and the WebSocket attach/detach lifecycle of `handle_vobiz_websocket`;
* the XML builders and WebSocket-URL construction used by `/answer`;
* the payload encoding pipeline (Python `json.dumps`, UTF-8 encoding,
  `base64.b64encode`) used by `/answer` and the decoding pipeline
  (`base64.b64decode`, UTF-8 decoding, `json.loads`) used by the WebSocket
  handler, together with a proved round-trip law.

Environment variables are modelled by an explicit `Env` record; network calls
to the carrier are modelled by their observable outcome (the mocked-carrier
style of the specification's test scenarios).  JSON numbers are modelled as
arbitrary-precision integers (Python ints); floating-point literals are
outside the model.
-/

set_option maxHeartbeats 1000000
set_option maxRecDepth 8000

namespace Vobiz

/-! ### JSON values

Model of the Python JSON values that can appear as a caller-supplied `body`
payload: the output domain of `json.loads` restricted to integer numerals.
Objects keep insertion order, as Python dicts do. -/

inductive Json where
  | null : Json
  | bool (b : Bool) : Json
  | num (n : Int) : Json
  | str (s : String) : Json
  | arr (elems : List Json) : Json
  | obj (members : List (String × Json)) : Json

/-- Python truthiness of a JSON value (`if parsed_body_data:` in `server.py`). -/
def Json.truthy : Json → Bool
  | .null => false
  | .bool b => b
  | .num n => !(n == 0)
  | .str s => !(s == "")
  | .arr l => !l.isEmpty
  | .obj l => !l.isEmpty

/-- Keys of an object fragment are pairwise distinct. -/
def keysUnique : List (String × Json) → Bool
  | [] => true
  | (k, _) :: rest => !(rest.any (fun p => p.1 == k)) && keysUnique rest

mutual
/-- Well-formedness of a JSON value as a Python dict-based value: every object
has pairwise-distinct keys.  Every value produced by `json.loads` satisfies
this. -/
def Json.wf : Json → Bool
  | .null => true
  | .bool _ => true
  | .num _ => true
  | .str _ => true
  | .arr l => Json.wfElems l
  | .obj l => keysUnique l && Json.wfMembers l

def Json.wfElems : List Json → Bool
  | [] => true
  | j :: rest => j.wf && Json.wfElems rest

def Json.wfMembers : List (String × Json) → Bool
  | [] => true
  | p :: rest => p.2.wf && Json.wfMembers rest
end

/-! ### `json.dumps`

Serialization of a JSON value exactly as Python's `json.dumps` with default
options renders it: item separator `", "`, key separator `": "`,
`ensure_ascii=True` (every character outside `0x20`–`0x7e` is `\uXXXX`-escaped
with lowercase hex digits, shortcut escapes for the two-character escape
sequences, surrogate pairs for astral code points). -/

/-- Decimal digit character. -/
def digitChar : Nat → Char
  | 0 => '0'
  | 1 => '1'
  | 2 => '2'
  | 3 => '3'
  | 4 => '4'
  | 5 => '5'
  | 6 => '6'
  | 7 => '7'
  | 8 => '8'
  | _ => '9'

/-- Lowercase hexadecimal digit character. -/
def hexDigitChar : Nat → Char
  | 0 => '0'
  | 1 => '1'
  | 2 => '2'
  | 3 => '3'
  | 4 => '4'
  | 5 => '5'
  | 6 => '6'
  | 7 => '7'
  | 8 => '8'
  | 9 => '9'
  | 10 => 'a'
  | 11 => 'b'
  | 12 => 'c'
  | 13 => 'd'
  | 14 => 'e'
  | _ => 'f'

/-- Four lowercase hex digits of `n % 0x10000`. -/
def hex4 (n : Nat) : List Char :=
  [hexDigitChar (n / 4096 % 16), hexDigitChar (n / 256 % 16),
   hexDigitChar (n / 16 % 16), hexDigitChar (n % 16)]

/-- Decimal digits of a natural number, most significant first. -/
def natChars (n : Nat) : List Char :=
  if n < 10 then [digitChar n]
  else natChars (n / 10) ++ [digitChar (n % 10)]
decreasing_by
  omega

/-- Decimal rendering of a Python int. -/
def intChars : Int → List Char
  | Int.ofNat m => natChars m
  | Int.negSucc m => '-' :: natChars (m + 1)

/-- `json.dumps` escaping of one string character (`ensure_ascii=True`). -/
def escapeChar (c : Char) : List Char :=
  if c = '"' then ['\\', '"']
  else if c = '\\' then ['\\', '\\']
  else if c = '\x08' then ['\\', 'b']
  else if c = '\t' then ['\\', 't']
  else if c = '\n' then ['\\', 'n']
  else if c = '\x0c' then ['\\', 'f']
  else if c = '\r' then ['\\', 'r']
  else if 0x20 ≤ c.toNat ∧ c.toNat ≤ 0x7e then [c]
  else if c.toNat < 0x10000 then '\\' :: 'u' :: hex4 c.toNat
  else
    '\\' :: 'u' :: hex4 (0xd800 + (c.toNat - 0x10000) / 0x400) ++
      '\\' :: 'u' :: hex4 (0xdc00 + (c.toNat - 0x10000) % 0x400)

def escapeChars : List Char → List Char
  | [] => []
  | c :: rest => escapeChar c ++ escapeChars rest

mutual
/-- `json.dumps` with default separators, as a character list. -/
def Json.dumpsL : Json → List Char
  | .null => 'n' :: ['u', 'l', 'l']
  | .bool true => 't' :: ['r', 'u', 'e']
  | .bool false => 'f' :: ['a', 'l', 's', 'e']
  | .num n => intChars n
  | .str s => '"' :: (escapeChars s.toList ++ ['"'])
  | .arr [] => ['[', ']']
  | .arr (j :: rest) => '[' :: (Json.dumpsL j ++ Json.dumpsArr rest ++ [']'])
  | .obj [] => ['{', '}']
  | .obj ((k, v) :: rest) =>
    '{' :: ('"' :: (escapeChars k.toList ++ ['"', ':', ' ']) ++ Json.dumpsL v
      ++ Json.dumpsObj rest ++ ['}'])

def Json.dumpsArr : List Json → List Char
  | [] => []
  | j :: rest => ',' :: ' ' :: (Json.dumpsL j ++ Json.dumpsArr rest)

def Json.dumpsObj : List (String × Json) → List Char
  | [] => []
  | (k, v) :: rest =>
    ',' :: ' ' :: ('"' :: (escapeChars k.toList ++ ['"', ':', ' ']) ++ Json.dumpsL v
      ++ Json.dumpsObj rest)
end

/-- One serialized object member, `"key": value`. -/
def Json.dumpsMember (k : String) (v : Json) : List Char :=
  '"' :: (escapeChars k.toList ++ ['"', ':', ' ']) ++ Json.dumpsL v

/-- `json.dumps` as a Lean string. -/
def Json.dumps (j : Json) : String := String.mk j.dumpsL

/-! ### UTF-8 encoding (`str.encode("utf-8")`) and decoding (`bytes.decode("utf-8")`) -/

/-- UTF-8 bytes of one Unicode scalar value. -/
def utf8EncodeChar (c : Char) : List Nat :=
  let v := c.toNat
  if v < 0x80 then [v]
  else if v < 0x800 then [0xc0 + v / 0x40, 0x80 + v % 0x40]
  else if v < 0x10000 then [0xe0 + v / 0x1000, 0x80 + v / 0x40 % 0x40, 0x80 + v % 0x40]
  else [0xf0 + v / 0x40000, 0x80 + v / 0x1000 % 0x40, 0x80 + v / 0x40 % 0x40, 0x80 + v % 0x40]

/-- UTF-8 byte sequence of a character sequence. -/
def utf8Encode : List Char → List Nat
  | [] => []
  | c :: rest => utf8EncodeChar c ++ utf8Encode rest

/-- Is the byte a UTF-8 continuation byte? -/
def isContByte (b : Nat) : Bool := decide (0x80 ≤ b) && decide (b < 0xc0)

/-- Strict UTF-8 decoder (rejects stray continuation bytes, overlong forms,
surrogate code points and out-of-range values, as Python's `bytes.decode`
does).  The fuel argument bounds the number of decoded characters; the
wrapper `utf8Decode` supplies more fuel than any input can consume. -/
def utf8DecodeF : Nat → List Nat → Option (List Char)
  | 0, _ => none
  | _ + 1, [] => some []
  | fuel + 1, b :: bs =>
    if b < 0x80 then (utf8DecodeF fuel bs).map (fun cs => Char.ofNat b :: cs)
    else if b < 0xc2 then none
    else if b < 0xe0 then
      match bs with
      | b2 :: bs2 =>
        if isContByte b2 then
          (utf8DecodeF fuel bs2).map (fun cs => Char.ofNat ((b - 0xc0) * 0x40 + (b2 - 0x80)) :: cs)
        else none
      | [] => none
    else if b < 0xf0 then
      match bs with
      | b2 :: b3 :: bs3 =>
        if isContByte b2 && isContByte b3 then
          let v := (b - 0xe0) * 0x1000 + (b2 - 0x80) * 0x40 + (b3 - 0x80)
          if v < 0x800 then none
          else if 0xd800 ≤ v ∧ v < 0xe000 then none
          else (utf8DecodeF fuel bs3).map (fun cs => Char.ofNat v :: cs)
        else none
      | _ => none
    else if b < 0xf5 then
      match bs with
      | b2 :: b3 :: b4 :: bs4 =>
        if isContByte b2 && isContByte b3 && isContByte b4 then
          let v := (b - 0xf0) * 0x40000 + (b2 - 0x80) * 0x1000 + (b3 - 0x80) * 0x40 + (b4 - 0x80)
          if v < 0x10000 then none
          else if 0x110000 ≤ v then none
          else (utf8DecodeF fuel bs4).map (fun cs => Char.ofNat v :: cs)
        else none
      | _ => none
    else none

/-- `bytes.decode("utf-8")`. -/
def utf8Decode (l : List Nat) : Option (List Char) := utf8DecodeF (l.length + 1) l

/-! ### Base64 (`base64.b64encode` / `base64.b64decode`) -/

/-- The standard base64 alphabet. -/
def b64Alphabet : List Char :=
  "ABCDEFGHIJKLMNOPQRSTUVWXYZabcdefghijklmnopqrstuvwxyz0123456789+/".toList

/-- Character encoding a six-bit group. -/
def b64Char (n : Nat) : Char := b64Alphabet.getD n 'A'

def b64IndexAux : List Char → Char → Nat → Option Nat
  | [], _, _ => none
  | d :: rest, c, i => if d = c then some i else b64IndexAux rest c (i + 1)

/-- Position of a character in the base64 alphabet. -/
def b64Index (c : Char) : Option Nat := b64IndexAux b64Alphabet c 0

/-- `base64.b64encode` on a byte list, producing the ASCII character list of
the encoded form. -/
def b64encodeL : List Nat → List Char
  | [] => []
  | [a] => [b64Char (a / 4), b64Char (a % 4 * 16), '=', '=']
  | [a, b] => [b64Char (a / 4), b64Char (a % 4 * 16 + b / 16), b64Char (b % 16 * 4), '=']
  | a :: b :: c :: rest =>
    b64Char (a / 4) :: b64Char (a % 4 * 16 + b / 16) :: b64Char (b % 16 * 4 + c / 64) ::
      b64Char (c % 64) :: b64encodeL rest

/-- `base64.b64decode` on a character list: processes four-character groups,
accepting `=` padding only at the very end; input whose length is not a
multiple of four, or with a non-alphabet character outside the padding
positions, raises `binascii.Error` in Python, modelled by `none`. -/
def b64decodeL : List Char → Option (List Nat)
  | [] => some []
  | c1 :: c2 :: c3 :: c4 :: rest =>
    match b64Index c1, b64Index c2 with
    | some s1, some s2 =>
      if c3 = '=' then
        if c4 = '=' ∧ rest = [] then some [s1 * 4 + s2 / 16] else none
      else
        match b64Index c3 with
        | some s3 =>
          if c4 = '=' then
            if rest = [] then some [s1 * 4 + s2 / 16, s2 % 16 * 16 + s3 / 4] else none
          else
            match b64Index c4 with
            | some s4 =>
              (b64decodeL rest).map
                (fun t => (s1 * 4 + s2 / 16) :: (s2 % 16 * 16 + s3 / 4) :: (s3 % 4 * 64 + s4) :: t)
            | none => none
        | none => none
    | _, _ => none
  | _ => none

/-! ### `json.loads`

A parser for the JSON fragment `json.dumps` can produce from the modelled
values: literals, integer numerals, strings with the full escape repertoire
(including surrogate pairs), arrays and objects, with arbitrary whitespace
between tokens.  Fractional and exponent numerals (Python floats) are outside
the model and rejected; so are the lone UTF-16 surrogates Python would accept
in `\uXXXX` escapes, since Lean characters are Unicode scalar values.
Duplicate object keys collapse with last-one-wins at the original key's
position, exactly as a Python dict built by insertion. -/

/-- JSON insignificant whitespace. -/
def isWsChar (c : Char) : Bool := c = ' ' || c = '\t' || c = '\n' || c = '\r'

def skipWs : List Char → List Char
  | [] => []
  | c :: rest => if isWsChar c then skipWs rest else c :: rest

/-- Value of one hex digit, either case (Python reads the four escape digits
with `int(esc, 16)`). -/
def parseHexDigit (c : Char) : Option Nat :=
  if decide ('0' ≤ c) && decide (c ≤ '9') then some (c.toNat - 48)
  else if decide ('a' ≤ c) && decide (c ≤ 'f') then some (c.toNat - 87)
  else if decide ('A' ≤ c) && decide (c ≤ 'F') then some (c.toNat - 55)
  else none

def isDigitChar (c : Char) : Bool := decide ('0' ≤ c) && decide (c ≤ '9')

def digitVal (c : Char) : Nat := c.toNat - 48

/-- Longest digit run at the front of the input. -/
def spanDigits : List Char → List Char × List Char
  | [] => ([], [])
  | c :: rest =>
    if isDigitChar c then
      let p := spanDigits rest
      (c :: p.1, p.2)
    else ([], c :: rest)

def digitsValAux (acc : Nat) : List Char → Nat
  | [] => acc
  | c :: rest => digitsValAux (acc * 10 + digitVal c) rest

/-- Numeric value of a digit run. -/
def digitsVal (ds : List Char) : Nat := digitsValAux 0 ds

/-- Parse an unsigned integer numeral: at least one digit, no superfluous
leading zero, and not followed by a fraction or exponent marker (which would
make it a Python float, outside the model). -/
def parseNatNum (s : List Char) : Option (Nat × List Char) :=
  match spanDigits s with
  | ([], _) => none
  | (d :: ds, r) =>
    if d = '0' ∧ ds ≠ [] then none
    else
      match r with
      | [] => some (digitsVal (d :: ds), [])
      | c :: tail =>
        if c = '.' ∨ c = 'e' ∨ c = 'E' then none else some (digitsVal (d :: ds), c :: tail)

/-- Parse a JSON integer numeral. -/
def parseNumber (s : List Char) : Option (Json × List Char) :=
  match s with
  | [] => none
  | c :: rest =>
    if c = '-' then
      match parseNatNum rest with
      | some (m, r) => some (.num (-(m : Int)), r)
      | none => none
    else
      match parseNatNum (c :: rest) with
      | some (m, r) => some (.num (m : Int), r)
      | none => none

/-- Value of a four-hex-digit escape payload. -/
def parseHex4 (a b c d : Char) : Option Nat :=
  match parseHexDigit a, parseHexDigit b, parseHexDigit c, parseHexDigit d with
  | some d1, some d2, some d3, some d4 => some (d1 * 4096 + d2 * 256 + d3 * 16 + d4)
  | _, _, _, _ => none

/-- The two-character escape sequences of the JSON grammar. -/
def escapeCode : Char → Option Char
  | '"' => some '"'
  | '\\' => some '\\'
  | '/' => some '/'
  | 'b' => some '\x08'
  | 'f' => some '\x0c'
  | 'n' => some '\n'
  | 'r' => some '\r'
  | 't' => some '\t'
  | _ => none

mutual
/-- Parse the body of a JSON string after the opening quote, returning the
decoded characters and the input following the closing quote.  Mirrors
Python's strict scanner: raw control characters are rejected, `\uXXXX`
escapes in the high-surrogate range must be followed by a low-surrogate
escape (the pair combines into one astral character).  The fuel argument
bounds the number of decoded characters; the wrapper `parseStringBody`
supplies more fuel than any input can consume. -/
def parseStringBodyF : Nat → List Char → Option (List Char × List Char)
  | 0, _ => none
  | _ + 1, [] => none
  | fuel + 1, c :: rest =>
    if c = '"' then some ([], rest)
    else if c = '\\' then parseEscapeF fuel rest
    else if c.toNat < 0x20 then none
    else (parseStringBodyF fuel rest).map (fun p => (c :: p.1, p.2))
termination_by fuel _ => (fuel, 0)

/-- Parse what follows a backslash inside a JSON string. -/
def parseEscapeF : Nat → List Char → Option (List Char × List Char)
  | fuel, 'u' :: h1 :: h2 :: h3 :: h4 :: rest3 =>
    match parseHex4 h1 h2 h3 h4 with
    | none => none
    | some v =>
      if 0xd800 ≤ v ∧ v < 0xdc00 then parseLowSurrogateF fuel v rest3
      else if 0xdc00 ≤ v ∧ v < 0xe000 then none
      else (parseStringBodyF fuel rest3).map (fun p => (Char.ofNat v :: p.1, p.2))
  | fuel, e :: rest2 =>
    match escapeCode e with
    | some ec => (parseStringBodyF fuel rest2).map (fun p => (ec :: p.1, p.2))
    | none => none
  | _, [] => none
termination_by fuel _ => (fuel, 2)

/-- Parse the mandatory low-surrogate escape after a high-surrogate one and
combine the pair into one astral character. -/
def parseLowSurrogateF : Nat → Nat → List Char → Option (List Char × List Char)
  | fuel, v, '\\' :: 'u' :: h5 :: h6 :: h7 :: h8 :: rest5 =>
    match parseHex4 h5 h6 h7 h8 with
    | none => none
    | some w =>
      if 0xdc00 ≤ w ∧ w < 0xe000 then
        (parseStringBodyF fuel rest5).map
          (fun p => (Char.ofNat (0x10000 + (v - 0xd800) * 0x400 + (w - 0xdc00)) :: p.1, p.2))
      else none
  | _, _, _ => none
termination_by fuel _ _ => (fuel, 1)
end

/-- Parse a JSON string body with ample fuel. -/
def parseStringBody (l : List Char) : Option (List Char × List Char) :=
  parseStringBodyF (l.length + 1) l

/-- Insertion of one parsed member into an object under construction:
`d[k] = v` on a Python dict keeps an existing key's position and replaces its
value, otherwise appends. -/
def objInsert : List (String × Json) → String × Json → List (String × Json)
  | [], p => [p]
  | (k, v) :: rest, p => if k = p.1 then (k, p.2) :: rest else (k, v) :: objInsert rest p

/-- Build the object member list the way Python's scanner builds the dict. -/
def foldInsert (l : List (String × Json)) : List (String × Json) :=
  l.foldl objInsert []

mutual
/-- Parse one JSON value.  The fuel argument bounds the nesting/iteration
depth; `loads` supplies more fuel than any input can consume. -/
def parseValue : Nat → List Char → Option (Json × List Char)
  | 0, _ => none
  | fuel + 1, s =>
    match skipWs s with
    | [] => none
    | c :: rest =>
      if c = 'n' then
        match rest with
        | 'u' :: 'l' :: 'l' :: r => some (.null, r)
        | _ => none
      else if c = 't' then
        match rest with
        | 'r' :: 'u' :: 'e' :: r => some (.bool true, r)
        | _ => none
      else if c = 'f' then
        match rest with
        | 'a' :: 'l' :: 's' :: 'e' :: r => some (.bool false, r)
        | _ => none
      else if c = '"' then
        (parseStringBody rest).map (fun p => (.str (String.mk p.1), p.2))
      else if c = '[' then
        match skipWs rest with
        | [] => none
        | c2 :: r2 =>
          if c2 = ']' then some (.arr [], r2)
          else (parseElems fuel (c2 :: r2)).map (fun p => (.arr p.1, p.2))
      else if c = '{' then
        match skipWs rest with
        | [] => none
        | c2 :: r2 =>
          if c2 = '}' then some (.obj [], r2)
          else (parseMembers fuel (c2 :: r2)).map (fun p => (.obj (foldInsert p.1), p.2))
      else if c = '-' ∨ isDigitChar c then parseNumber (c :: rest)
      else none

/-- Parse the non-empty element list of an array, consuming the closing
bracket. -/
def parseElems : Nat → List Char → Option (List Json × List Char)
  | 0, _ => none
  | fuel + 1, s =>
    match parseValue fuel s with
    | none => none
    | some (j, r1) =>
      match skipWs r1 with
      | [] => none
      | c :: r2 =>
        if c = ']' then some ([j], r2)
        else if c = ',' then
          match parseElems fuel r2 with
          | some (l, r3) => some (j :: l, r3)
          | none => none
        else none

/-- Parse the non-empty member list of an object, consuming the closing
brace. -/
def parseMembers : Nat → List Char → Option (List (String × Json) × List Char)
  | 0, _ => none
  | fuel + 1, s =>
    match skipWs s with
    | [] => none
    | c :: rest =>
      if c = '"' then
        match parseStringBody rest with
        | none => none
        | some (kchars, r1) =>
          match skipWs r1 with
          | [] => none
          | c2 :: r2 =>
            if c2 = ':' then
              match parseValue fuel r2 with
              | none => none
              | some (v, r3) =>
                match skipWs r3 with
                | [] => none
                | c3 :: r4 =>
                  if c3 = '}' then some ([(String.mk kchars, v)], r4)
                  else if c3 = ',' then
                    match parseMembers fuel r4 with
                    | some (l, r5) => some ((String.mk kchars, v) :: l, r5)
                    | none => none
                  else none
            else none
      else none
end

mutual
/-- Fuel needed by `parseValue` to parse the serialization of a value:
one unit per nesting level and per list element. -/
def jweight : Json → Nat
  | .null => 1
  | .bool _ => 1
  | .num _ => 1
  | .str _ => 1
  | .arr l => 1 + weightElems l
  | .obj l => 1 + weightMembers l

def weightElems : List Json → Nat
  | [] => 0
  | j :: rest => 1 + jweight j + weightElems rest

def weightMembers : List (String × Json) → Nat
  | [] => 0
  | (_, v) :: rest => 1 + jweight v + weightMembers rest
end

/-- The input following a serialized numeral must not extend it: no digit
and no fraction/exponent marker.  Inside a serialized document a numeral is
always followed by `,`, `]`, `}` or the end of input. -/
def numBoundary : List Char → Prop
  | [] => True
  | c :: _ => isDigitChar c = false ∧ c ≠ '.' ∧ c ≠ 'e' ∧ c ≠ 'E'

/-- The characters that can start a serialized JSON value. -/
def goodHead (c : Char) : Prop :=
  c = 'n' ∨ c = 't' ∨ c = 'f' ∨ c = '"' ∨ c = '[' ∨ c = '{' ∨ c = '-' ∨ isDigitChar c = true

/-- `json.loads` on a character list: parse one value with ample fuel and
require only whitespace to remain. -/
def loadsAux (s : List Char) : Option Json :=
  match parseValue (s.length + 1) s with
  | some (j, rest) => if skipWs rest = [] then some j else none
  | none => none

/-- `json.loads`. -/
def loads (s : String) : Option Json := loadsAux s.toList

/-- The body-parameter decoding performed by `handle_vobiz_websocket` (lines
696-707): `base64.b64decode(body).decode("utf-8")` then `json.loads`; any
exception is caught and leaves `body_data` as the empty dict. -/
def wsDecodeBody (body : String) : Json :=
  match b64decodeL body.toList with
  | none => Json.obj []
  | some bytes =>
    match utf8Decode bytes with
    | none => Json.obj []
    | some chars =>
      match loadsAux chars with
      | none => Json.obj []
      | some j => j

/-! ### Registry data model (`active_calls`) -/

/-- Opaque handle for a live WebSocket object. -/
abbrev Session := Nat

/-- One entry of `active_calls` (`server.py` creates these at lines 258-263,
452-454, 737-752).  Fields of type `Option (Option String)` model dict keys
that may be absent (outer layer) and whose stored value may itself be Python
`None` (inner layer). -/
structure CallRecord where
  status : String
  started_at : String
  transfer_requested : Bool
  websocket : Option Session
  path : Option String := none
  recording_id : Option (Option String) := none
  recording_url : Option (Option String) := none
deriving Repr, DecidableEq

/-- The `active_calls` dict, as an association list keyed by call UUID. -/
abbrev Registry := List (String × CallRecord)

/-- Dict lookup `active_calls[c]` / membership `c in active_calls`. -/
def rfind : Registry → String → Option CallRecord
  | [], _ => none
  | (k, v) :: rest, c => if k = c then some v else rfind rest c

/-- Dict assignment `active_calls[c] = v`: updates in place when the key is
present, appends otherwise. -/
def rset : Registry → String → CallRecord → Registry
  | [], c, v => [(c, v)]
  | (k, w) :: rest, c, v => if k = c then (c, v) :: rest else (k, w) :: rset rest c v

/-- Dict deletion `del active_calls[c]`. -/
def rerase : Registry → String → Registry
  | [], _ => []
  | (k, w) :: rest, c => if k = c then rest else (k, w) :: rerase rest c

/-- Number of entries stored under a key (a Python dict always has at most
one; ill-formed association lists could have more). -/
def keyCount : Registry → String → Nat
  | [], _ => 0
  | (k, _) :: rest, c => (if k = c then 1 else 0) + keyCount rest c

/-- Well-formed registry: at most one entry per key, as for a Python dict. -/
def RegistryWF (st : Registry) : Prop := ∀ c, keyCount st c ≤ 1

/-! ### Environment configuration -/

/-- The environment variables `server.py` reads in the modelled handlers.
`none` models an unset variable. -/
structure Env where
  ENV : Option String := none
  PUBLIC_URL : Option String := none
  TRANSFER_AGENT_NUMBER : Option String := none
  AGENT_NAME : Option String := none
  ORGANIZATION_NAME : Option String := none
deriving Repr, DecidableEq

/-- Python `str.lower()` on one character, for the ASCII configuration
values the server compares (`"production"`). -/
def lowerChar (c : Char) : Char :=
  if 'A' ≤ c ∧ c ≤ 'Z' then Char.ofNat (c.toNat + 32) else c

/-- Python `str.lower()`. -/
def lowerStr (s : String) : String := String.mk (s.toList.map lowerChar)

/-- `os.getenv("ENV", "local").lower()` (`server.py` lines 163, 353). -/
def envName (env : Env) : String := lowerStr (env.ENV.getD "local")

/-- `os.getenv("TRANSFER_AGENT_NUMBER", "+919148227303")` (lines 312, 538). -/
def transferAgentNumber (env : Env) : String :=
  env.TRANSFER_AGENT_NUMBER.getD "+919148227303"

/-- Python `f"{x}"` on an optional string: `None` prints as `"None"`. -/
def optStr : Option String → String
  | some s => s
  | none => "None"

/-! ### URL and XML builders -/

/-- `get_websocket_url` (`server.py` lines 159-170): fixed Pipecat Cloud relay
address in production, `wss://<host>/ws` otherwise. -/
def get_websocket_url (env : Env) (host : String) : String :=
  if envName env = "production" then "wss://api.pipecat.daily.co/ws/plivo"
  else "wss://" ++ host ++ "/ws"

/-- The `record_element` fragment of the stream XML (lines 389-391). -/
def recordElement (protocol host : String) : String :=
  "\n        <Record fileFormat=\"wav\" maxLength=\"3600\" recordSession=\"true\" callbackUrl=\""
    ++ protocol ++ "://" ++ host
    ++ "/recording-ready\" callbackMethod=\"POST\">\n        </Record>"

/-- The stream-and-record XML document (lines 408-414). -/
def streamXml (protocol host finalWsUrl : String) : String :=
  "<?xml version=\"1.0\" encoding=\"UTF-8\"?>\n<Response>\n"
    ++ recordElement protocol host
    ++ "\n        <Stream bidirectional=\"true\" audioTrack=\"inbound\" contentType=\"audio/x-mulaw;rate=8000\" keepCallAlive=\"true\">\n            "
    ++ finalWsUrl
    ++ "\n        </Stream>\n</Response>"

/-- The Speak-then-Dial transfer XML document; the identical template appears
at lines 315-321 (with the configured agent number interpolated) and at lines
543-549 (with a hardcoded number interpolated). -/
def transferXml (number : String) : String :=
  "<?xml version=\"1.0\" encoding=\"UTF-8\"?>\n<Response>\n    <Speak voice=\"WOMAN\" language=\"en-US\">\n        Please hold while I transfer you to a human agent.\n    </Speak>\n    <Dial>"
    ++ number ++ "</Dial>\n</Response>"

/-- `body=` query-parameter value: `base64.b64encode(json.dumps(body).encode("utf-8"))`
(lines 362-363). -/
def encodeBodyParam (j : Json) : String :=
  String.mk (b64encodeL (utf8Encode j.dumpsL))

/-- The `query_params` list built at lines 350-364: a `serviceHost` tag in
production, then the base64-of-JSON `body` parameter when the parsed body is
truthy. -/
def answerQueryParams (env : Env) (parsedBody : Json) : List String :=
  (if envName env = "production" then
      ["serviceHost=" ++ optStr env.AGENT_NAME ++ "." ++ optStr env.ORGANIZATION_NAME]
    else [])
  ++ (if parsedBody.truthy then ["body=" ++ encodeBodyParam parsedBody] else [])

/-- `final_ws_url` (lines 401-406): always `wss://<host>/voice/ws`, with the
query parameters appended by `'&'.join`. -/
def answerFinalWsUrl (env : Env) (parsedBody : Json) (host : String) : String :=
  match answerQueryParams env parsedBody with
  | [] => "wss://" ++ host ++ "/voice/ws"
  | qs => "wss://" ++ host ++ "/voice/ws?" ++ String.intercalate "&" qs

/-! ### Request handlers -/

/-- `get_answer_xml` (`/answer`, lines 287-423).  Inputs are the environment,
the registry, the `CallUUID` query parameter, the already-parsed
`body_data` payload (an empty object when the parameter is missing or
unparseable) and the resolved host/protocol.  Returns the XML response and
the updated registry.  The transfer branch (lines 305-331) fires when the
call is registered and its `transfer_requested` flag is truthy; it clears the
flag and sets the status to `"transferred"`.  Otherwise the stream XML is
returned and the registry is unchanged. -/
def get_answer_xml (env : Env) (st : Registry) (CallUUID : Option String)
    (parsedBody : Json) (host protocol : String) : String × Registry :=
  let streamResult := (streamXml protocol host (answerFinalWsUrl env parsedBody host), st)
  match CallUUID with
  | none => streamResult
  | some cu =>
    if cu = "" then streamResult
    else
      match rfind st cu with
      | none => streamResult
      | some call_info =>
        if call_info.transfer_requested then
          (transferXml (transferAgentNumber env),
           rset st cu { call_info with transfer_requested := false, status := "transferred" })
        else streamResult

/-- Carrier response body of a successful call placement (`make_vobiz_call`
result), restricted to the two fields `initiate_outbound_call` reads. -/
structure CarrierResult where
  request_uuid : Option String := none
  call_uuid : Option String := none
deriving Repr, DecidableEq

/-- Python `a or b` on an optional string against a string default: a missing
or empty string is falsy. -/
def pyOrStr : Option String → String → String
  | some s, b => if s = "" then b else s
  | none, b => b

/-- `call_result.get("request_uuid") or call_result.get("call_uuid") or "unknown"`
(line 252). -/
def extractCallUuid (r : CarrierResult) : String :=
  pyOrStr r.request_uuid (pyOrStr r.call_uuid "unknown")

/-- The record pre-created by `/start` (lines 258-263). -/
def freshCallRecord (now : String) : CallRecord :=
  { status := "initiated", started_at := now, transfer_requested := false, websocket := none }

/-- The pre-registration step of `/start` (lines 255-264): stores a fresh
record unless the extracted call UUID is falsy or the literal `"unknown"`. -/
def preregisterCall (st : Registry) (call_uuid now : String) : Registry :=
  if call_uuid ≠ "" ∧ call_uuid ≠ "unknown" then rset st call_uuid (freshCallRecord now)
  else st

/-- The JSON body of the `/start` success response (lines 278-284). -/
structure StartResponse where
  call_uuid : String
  status : String
  phone_number : String
deriving Repr, DecidableEq

/-- `initiate_outbound_call` (`/start`, lines 196-284), from the point where
the carrier call has succeeded with response body `r`: extracts the call
UUID, pre-registers the call, and returns the success JSON. -/
def initiate_outbound_call (st : Registry) (r : CarrierResult) (now phone_number : String) :
    Registry × StartResponse :=
  let cu := extractCallUuid r
  (preregisterCall st cu now,
   { call_uuid := cu, status := "call_initiated", phone_number := phone_number })

/-- `recording_finished` (`/recording-finished`, lines 426-471): stores the
recording id and URL on the record when the call UUID is truthy and
registered; otherwise only logs.  Always returns the empty XML
acknowledgement; the handler body performs no operation that can raise. -/
def recording_finished (st : Registry) (CallUUID RecordingID RecordUrl : Option String) :
    Registry × String :=
  let st2 :=
    match CallUUID with
    | none => st
    | some cu =>
      if cu = "" then st
      else
        match rfind st cu with
        | none => st
        | some info =>
          rset st cu { info with recording_id := some RecordingID, recording_url := some RecordUrl }
  (st2, "<Response></Response>")

/-- `transfer_to_human` (`/transfer-to-human`, lines 532-554): reads the
configured agent number into `agent_number` (and logs it), but the returned
XML interpolates the hardcoded literal `+919148227303`. -/
def transfer_to_human (env : Env) : String :=
  let _agent_number := transferAgentNumber env
  transferXml "+919148227303"

/-- Observable outcome of `initiate_transfer`, including its HTTP error
paths. -/
inductive TransferOutcome where
  | badRequest
  | notFound
  | noPublicUrl
  | ok
  | carrierFailed
deriving Repr, DecidableEq

/-- `initiate_transfer` (`/initiate-transfer`, lines 557-648): 400 for a
falsy `call_uuid`, 404 when unregistered; otherwise the record's status is
set to `"transferring"` (line 575) before the `PUBLIC_URL` check and the
carrier redirect request, whose acceptance (HTTP 202) is the
`redirectAccepted` parameter.  Note that no branch touches
`transfer_requested`. -/
def initiate_transfer (env : Env) (st : Registry) (call_uuid : Option String)
    (redirectAccepted : Bool) : TransferOutcome × Registry :=
  match call_uuid with
  | none => (.badRequest, st)
  | some cu =>
    if cu = "" then (.badRequest, st)
    else
      match rfind st cu with
      | none => (.notFound, st)
      | some call_info =>
        let st2 := rset st cu { call_info with status := "transferring" }
        match env.PUBLIC_URL with
        | none => (.noPublicUrl, st2)
        | some u =>
          if u = "" then (.noPublicUrl, st2)
          else if redirectAccepted then (.ok, st2) else (.carrierFailed, st2)

/-- The session-attach step of `handle_vobiz_websocket` (lines 735-752): an
existing record is updated in place to `"active"` status with the WebSocket
reference and path; an absent call UUID gets a freshly created active
record. -/
def attachSession (st : Registry) (call_uuid : String) (ws : Session) (path now : String) :
    Registry :=
  match rfind st call_uuid with
  | some info =>
    rset st call_uuid { info with status := "active", websocket := some ws, path := some path }
  | none =>
    rset st call_uuid
      { status := "active", started_at := now, path := some path, websocket := some ws,
        transfer_requested := false }

/-- The clean-up in the `finally` block of `handle_vobiz_websocket` (lines
776-789): a record in `"transferring"` status is kept with its WebSocket
reference nulled; any other registered record is deleted. -/
def detachSession (st : Registry) (call_uuid : Option String) : Registry :=
  match call_uuid with
  | none => st
  | some cu =>
    if cu = "" then st
    else
      match rfind st cu with
      | none => st
      | some info =>
        if info.status = "transferring" then rset st cu { info with websocket := none }
        else rerase st cu

/-- The end of a WebSocket session in `handle_vobiz_websocket`: whether the
bot hand-off raised (the exception is swallowed at lines 768-775) or returned
normally, the `finally` block runs `detachSession`.  The two branches of the
model mirror the two control paths through the `try`/`except`/`finally`. -/
def wsSessionEnd (st : Registry) (call_uuid : Option String) (botRaised : Bool) : Registry :=
  if botRaised then detachSession st call_uuid else detachSession st call_uuid

/-! ### The server's registry-mutating operations, as one step type

Used to express "for every subsequent server operation" in the exactly-once
and invariant claims. -/

inductive ServerOp where
  | startOp (r : CarrierResult) (now phone : String)
  | answerOp (env : Env) (CallUUID : Option String) (parsedBody : Json) (host protocol : String)
  | transferOp (env : Env) (call_uuid : Option String) (redirectAccepted : Bool)
  | attachOp (call_uuid : String) (ws : Session) (path now : String)
  | detachOp (call_uuid : Option String)
  | recordingOp (CallUUID RecordingID RecordUrl : Option String)

/-- Registry effect of one server operation.  The attach step honours the
`if call_uuid:` guard of the WebSocket handler (line 735). -/
def ServerOp.apply (st : Registry) : ServerOp → Registry
  | .startOp r now phone => (initiate_outbound_call st r now phone).1
  | .answerOp env cu pb host protocol => (get_answer_xml env st cu pb host protocol).2
  | .transferOp env cu okFlag => (initiate_transfer env st cu okFlag).2
  | .attachOp cu ws path now => if cu = "" then st else attachSession st cu ws path now
  | .detachOp cu => detachSession st cu
  | .recordingOp cu rid rurl => (recording_finished st cu rid rurl).1

/-- Registry effect of a sequence of server operations. -/
def applyOps (ops : List ServerOp) (st : Registry) : Registry :=
  ops.foldl ServerOp.apply st

/-- The record stored for a call id has its transfer flag cleared (or the
call id is absent). -/
def flagClear (st : Registry) (c : String) : Prop :=
  ∀ r, rfind st c = some r → r.transfer_requested = false

/-! ### Concrete instances used in counterexamples and witnesses -/

def c1Env : Env := { PUBLIC_URL := some "https://server.example" }

def c1Rec : CallRecord := { status := "active", started_at := "t0", transfer_requested := false, websocket := some 0, path := some "/voice/ws" }

def c1St : Registry := [("CA123", c1Rec)]

def c2Rec : CallRecord := { status := "active", started_at := "t0", transfer_requested := true, websocket := some 0 }

def c2St : Registry := [("CA123", c2Rec)]

def c2Ops : List ServerOp := [ServerOp.detachOp (some "CA123"), ServerOp.attachOp "CA123" 1 "/voice/ws" "t1", ServerOp.recordingOp (some "CA123") (some "rec1") (some "https://rec.example/1")]

def c3Env : Env := { ENV := some "production", AGENT_NAME := some "bot", ORGANIZATION_NAME := some "acme" }

def c4Rec : CallRecord := { status := "active", started_at := "t0", transfer_requested := false, websocket := some 4 }

def c4St : Registry := [("CA4", c4Rec)]

def c5Rec : CallRecord := { status := "transferred", started_at := "t0", transfer_requested := false, websocket := none }

def c5St : Registry := [("CA5", c5Rec)]

def c6Rec : CallRecord := { status := "transferring", started_at := "t0", transfer_requested := false, websocket := some 6 }

def c6St : Registry := [("CA6", c6Rec)]

def c7Payload : Json := Json.obj [("x", Json.num 1)]

def c8Rec : CallRecord := { status := "active", started_at := "t0", transfer_requested := false, websocket := some 8 }

def c8St : Registry := [("CA8", c8Rec)]

def c9Env : Env := { TRANSFER_AGENT_NUMBER := some "+15550001111" }

def c9Rec : CallRecord := { status := "active", started_at := "t0", transfer_requested := true, websocket := some 9 }

def c9St : Registry := [("CA9", c9Rec)]

def c10Result : CarrierResult := { request_uuid := none, call_uuid := none }

/-! ## Registry lemmas -/

theorem rfind_rset_self (st : Registry) (c : String) (v : CallRecord) :
    rfind (rset st c v) c = some v := by
  induction st with
  | nil => simp [rset, rfind]
  | cons p rest ih =>
    obtain ⟨k, w⟩ := p
    by_cases h : k = c
    · subst h
      simp [rset, rfind]
    · simp [rset, rfind, h, ih]

theorem rfind_rset_ne (st : Registry) (c k : String) (v : CallRecord) (h : k ≠ c) :
    rfind (rset st c v) k = rfind st k := by
  have hck : ¬ c = k := fun hh => h hh.symm
  induction st with
  | nil => simp [rset, rfind, hck]
  | cons p rest ih =>
    obtain ⟨k2, w⟩ := p
    by_cases h2 : k2 = c
    · subst h2
      simp [rset, rfind, hck]
    · simp only [rset, if_neg h2, rfind]
      by_cases h3 : k2 = k
      · simp [h3]
      · simp [h3, ih]

theorem rfind_rerase_ne (st : Registry) (c k : String) (h : k ≠ c) :
    rfind (rerase st c) k = rfind st k := by
  have hck : ¬ c = k := fun hh => h hh.symm
  induction st with
  | nil => simp [rerase]
  | cons p rest ih =>
    obtain ⟨k2, w⟩ := p
    by_cases h2 : k2 = c
    · subst h2
      simp [rerase, rfind, hck]
    · simp only [rerase, if_neg h2, rfind]
      by_cases h3 : k2 = k
      · simp [h3]
      · simp [h3, ih]

theorem keyCount_rset (st : Registry) (c : String) (v : CallRecord) :
    keyCount (rset st c v) c = max 1 (keyCount st c) := by
  induction st with
  | nil => simp [rset, keyCount]
  | cons p rest ih =>
    obtain ⟨k, w⟩ := p
    by_cases h : k = c
    · subst h
      simp [rset, keyCount]
    · simp [rset, keyCount, h, ih]

theorem keyCount_rset_ne (st : Registry) (c k : String) (v : CallRecord) (h : k ≠ c) :
    keyCount (rset st c v) k = keyCount st k := by
  have hck : ¬ c = k := fun hh => h hh.symm
  induction st with
  | nil => simp [rset, keyCount, hck]
  | cons p rest ih =>
    obtain ⟨k2, w⟩ := p
    by_cases h2 : k2 = c
    · subst h2
      simp [rset, keyCount, hck]
    · simp [rset, keyCount, h2, ih]

theorem keyCount_rerase_self (st : Registry) (c : String) :
    keyCount (rerase st c) c = keyCount st c - 1 := by
  induction st with
  | nil => simp [rerase, keyCount]
  | cons p rest ih =>
    obtain ⟨k, w⟩ := p
    by_cases h : k = c
    · subst h
      simp [rerase, keyCount]
    · simp [rerase, keyCount, h, ih]

theorem keyCount_rerase_ne (st : Registry) (c k : String) (h : k ≠ c) :
    keyCount (rerase st c) k = keyCount st k := by
  have hck : ¬ c = k := fun hh => h hh.symm
  induction st with
  | nil => simp [rerase, keyCount]
  | cons p rest ih =>
    obtain ⟨k2, w⟩ := p
    by_cases h2 : k2 = c
    · subst h2
      simp [rerase, keyCount, hck]
    · simp [rerase, keyCount, h2, ih]

theorem rfind_eq_none_of_keyCount_zero (st : Registry) (c : String)
    (h : keyCount st c = 0) : rfind st c = none := by
  induction st with
  | nil => simp [rfind]
  | cons p rest ih =>
    obtain ⟨k, w⟩ := p
    by_cases h2 : k = c
    · subst h2
      simp [keyCount] at h
    · simp only [keyCount, if_neg h2, Nat.zero_add] at h
      simp [rfind, h2, ih h]

theorem registryWF_rset (st : Registry) (c : String) (v : CallRecord)
    (hwf : RegistryWF st) : RegistryWF (rset st c v) := by
  intro k
  by_cases h : k = c
  · subst h
    rw [keyCount_rset]
    have := hwf k
    omega
  · rw [keyCount_rset_ne st c k v h]
    exact hwf k

theorem registryWF_rerase (st : Registry) (c : String)
    (hwf : RegistryWF st) : RegistryWF (rerase st c) := by
  intro k
  by_cases h : k = c
  · subst h
    rw [keyCount_rerase_self]
    have := hwf k
    omega
  · rw [keyCount_rerase_ne st c k h]
    exact hwf k

theorem rfind_rerase_self (st : Registry) (c : String) (hwf : RegistryWF st) :
    rfind (rerase st c) c = none := by
  apply rfind_eq_none_of_keyCount_zero
  rw [keyCount_rerase_self]
  have := hwf c
  omega

/-! ## Behaviour of the handlers on the registry -/

theorem get_answer_xml_stream (env : Env) (st : Registry) (c : String) (pb : Json)
    (host protocol : String) (h : flagClear st c) :
    get_answer_xml env st (some c) pb host protocol
      = (streamXml protocol host (answerFinalWsUrl env pb host), st) := by
  unfold get_answer_xml
  by_cases hc : c = ""
  · simp [hc]
  · simp only [if_neg hc]
    cases hr : rfind st c with
    | none => rfl
    | some r => simp [h r hr]

theorem get_answer_xml_stream_none (env : Env) (st : Registry) (pb : Json)
    (host protocol : String) :
    get_answer_xml env st none pb host protocol
      = (streamXml protocol host (answerFinalWsUrl env pb host), st) := rfl

theorem get_answer_xml_transfer (env : Env) (st : Registry) (c : String) (r : CallRecord)
    (pb : Json) (host protocol : String)
    (hc : c ≠ "") (hr : rfind st c = some r) (hf : r.transfer_requested = true) :
    get_answer_xml env st (some c) pb host protocol
      = (transferXml (transferAgentNumber env),
         rset st c { r with transfer_requested := false, status := "transferred" }) := by
  unfold get_answer_xml
  simp [hc, hr, hf]

theorem get_answer_xml_registry_cases (env : Env) (st : Registry) (cu : Option String)
    (pb : Json) (host protocol : String) :
    (get_answer_xml env st cu pb host protocol).2 = st
    ∨ ∃ c r, rfind st c = some r
        ∧ (get_answer_xml env st cu pb host protocol).2
            = rset st c { r with transfer_requested := false, status := "transferred" } := by
  unfold get_answer_xml
  cases cu with
  | none => left; rfl
  | some c =>
    by_cases hc : c = ""
    · simp [hc]
    · simp only [if_neg hc]
      cases hr : rfind st c with
      | none => left; rfl
      | some r =>
        by_cases hf : r.transfer_requested
        · right
          exact ⟨c, r, hr, by simp [hf]⟩
        · simp [hf]

theorem initiate_transfer_registry_cases (env : Env) (st : Registry) (cu : Option String)
    (b : Bool) :
    (initiate_transfer env st cu b).2 = st
    ∨ ∃ c r, rfind st c = some r
        ∧ (initiate_transfer env st cu b).2 = rset st c { r with status := "transferring" } := by
  unfold initiate_transfer
  cases cu with
  | none => left; rfl
  | some c =>
    by_cases hc : c = ""
    · simp [hc]
    · simp only [if_neg hc]
      cases hr : rfind st c with
      | none => left; rfl
      | some r =>
        right
        refine ⟨c, r, hr, ?_⟩
        cases env.PUBLIC_URL with
        | none => rfl
        | some u =>
          by_cases hu : u = ""
          · simp [hu]
          · by_cases hb : b = true
            · simp [hu, hb]
            · simp [hu, hb]

theorem recording_finished_registry_cases (st : Registry) (cu rid rurl : Option String) :
    (recording_finished st cu rid rurl).1 = st
    ∨ ∃ c r, rfind st c = some r
        ∧ (recording_finished st cu rid rurl).1
            = rset st c { r with recording_id := some rid, recording_url := some rurl } := by
  unfold recording_finished
  cases cu with
  | none => left; rfl
  | some c =>
    by_cases hc : c = ""
    · simp [hc]
    · simp only [if_neg hc]
      cases hr : rfind st c with
      | none => left; rfl
      | some r => right; exact ⟨c, r, hr, rfl⟩

theorem attachSession_existing (st : Registry) (c : String) (r : CallRecord)
    (ws : Session) (path now : String) (hr : rfind st c = some r) :
    attachSession st c ws path now
      = rset st c { r with status := "active", websocket := some ws, path := some path } := by
  unfold attachSession
  simp [hr]

theorem attachSession_new (st : Registry) (c : String) (ws : Session) (path now : String)
    (hr : rfind st c = none) :
    attachSession st c ws path now
      = rset st c
          { status := "active", started_at := now, path := some path, websocket := some ws,
            transfer_requested := false } := by
  unfold attachSession
  simp [hr]

theorem detachSession_noUuid (st : Registry) : detachSession st none = st := rfl

theorem detachSession_emptyUuid (st : Registry) (c : String) (hc : c = "") :
    detachSession st (some c) = st := by
  unfold detachSession
  simp [hc]

theorem detachSession_absent (st : Registry) (c : String) (hc : c ≠ "")
    (hr : rfind st c = none) : detachSession st (some c) = st := by
  unfold detachSession
  simp [hc, hr]

theorem detachSession_keep (st : Registry) (c : String) (r : CallRecord)
    (hc : c ≠ "") (hr : rfind st c = some r) (hs : r.status = "transferring") :
    detachSession st (some c) = rset st c { r with websocket := none } := by
  unfold detachSession
  simp [hc, hr, hs]

theorem detachSession_delete (st : Registry) (c : String) (r : CallRecord)
    (hc : c ≠ "") (hr : rfind st c = some r) (hs : r.status ≠ "transferring") :
    detachSession st (some c) = rerase st c := by
  unfold detachSession
  simp [hc, hr, hs]

/-! ## Preservation of well-formedness and of a cleared transfer flag -/

theorem flagClear_rset_clear (st : Registry) (c c2 : String) (v : CallRecord)
    (h : flagClear st c) (hv : v.transfer_requested = false) :
    flagClear (rset st c2 v) c := by
  intro r hr
  by_cases hcc : c = c2
  · subst hcc
    rw [rfind_rset_self] at hr
    cases hr
    exact hv
  · rw [rfind_rset_ne st c2 c v hcc] at hr
    exact h r hr

theorem flagClear_rset_inherit (st : Registry) (c c2 : String) (r2 v : CallRecord)
    (h : flagClear st c) (hr2 : rfind st c2 = some r2)
    (hv : v.transfer_requested = r2.transfer_requested) :
    flagClear (rset st c2 v) c := by
  intro r hr
  by_cases hcc : c = c2
  · subst hcc
    rw [rfind_rset_self] at hr
    cases hr
    rw [hv]
    exact h r2 hr2
  · rw [rfind_rset_ne st c2 c v hcc] at hr
    exact h r hr

theorem flagClear_rerase (st : Registry) (c c2 : String)
    (hwf : RegistryWF st) (h : flagClear st c) :
    flagClear (rerase st c2) c := by
  intro r hr
  by_cases hcc : c = c2
  · subst hcc
    rw [rfind_rerase_self st c hwf] at hr
    cases hr
  · rw [rfind_rerase_ne st c2 c hcc] at hr
    exact h r hr

/-- One server operation preserves registry well-formedness and never sets a
call's cleared `transfer_requested` flag: no code path of `server.py` stores
`transfer_requested = True`. -/
theorem serverOp_preserves (op : ServerOp) (st : Registry) (c : String)
    (hwf : RegistryWF st) (h : flagClear st c) :
    RegistryWF (op.apply st) ∧ flagClear (op.apply st) c := by
  cases op with
  | startOp r now phone =>
    show RegistryWF (preregisterCall st _ now) ∧ flagClear (preregisterCall st _ now) c
    unfold preregisterCall
    split
    · exact ⟨registryWF_rset st _ _ hwf, flagClear_rset_clear st c _ _ h rfl⟩
    · exact ⟨hwf, h⟩
  | answerOp env cu pb host protocol =>
    rcases get_answer_xml_registry_cases env st cu pb host protocol with heq | ⟨c2, r2, hr2, heq⟩
    · rw [ServerOp.apply, heq]
      exact ⟨hwf, h⟩
    · rw [ServerOp.apply, heq]
      exact ⟨registryWF_rset st _ _ hwf, flagClear_rset_clear st c _ _ h rfl⟩
  | transferOp env cu b =>
    rcases initiate_transfer_registry_cases env st cu b with heq | ⟨c2, r2, hr2, heq⟩
    · rw [ServerOp.apply, heq]
      exact ⟨hwf, h⟩
    · rw [ServerOp.apply, heq]
      exact ⟨registryWF_rset st _ _ hwf, flagClear_rset_inherit st c c2 r2 _ h hr2 rfl⟩
  | attachOp cu ws path now =>
    rw [ServerOp.apply]
    split
    · exact ⟨hwf, h⟩
    · cases hr : rfind st cu with
      | some r2 =>
        rw [attachSession_existing st cu r2 ws path now hr]
        exact ⟨registryWF_rset st _ _ hwf, flagClear_rset_inherit st c cu r2 _ h hr rfl⟩
      | none =>
        rw [attachSession_new st cu ws path now hr]
        exact ⟨registryWF_rset st _ _ hwf, flagClear_rset_clear st c _ _ h rfl⟩
  | detachOp cu =>
    rw [ServerOp.apply]
    cases cu with
    | none => exact ⟨hwf, h⟩
    | some c2 =>
      by_cases hc2 : c2 = ""
      · rw [detachSession_emptyUuid st c2 hc2]
        exact ⟨hwf, h⟩
      · cases hr : rfind st c2 with
        | none =>
          rw [detachSession_absent st c2 hc2 hr]
          exact ⟨hwf, h⟩
        | some r2 =>
          by_cases hs : r2.status = "transferring"
          · rw [detachSession_keep st c2 r2 hc2 hr hs]
            exact ⟨registryWF_rset st _ _ hwf, flagClear_rset_inherit st c c2 r2 _ h hr rfl⟩
          · rw [detachSession_delete st c2 r2 hc2 hr hs]
            exact ⟨registryWF_rerase st _ hwf, flagClear_rerase st c c2 hwf h⟩
  | recordingOp cu rid rurl =>
    rcases recording_finished_registry_cases st cu rid rurl with heq | ⟨c2, r2, hr2, heq⟩
    · rw [ServerOp.apply, heq]
      exact ⟨hwf, h⟩
    · rw [ServerOp.apply, heq]
      exact ⟨registryWF_rset st _ _ hwf, flagClear_rset_inherit st c c2 r2 _ h hr2 rfl⟩

/-- A whole sequence of server operations preserves well-formedness and a
cleared transfer flag. -/
theorem applyOps_preserves (ops : List ServerOp) (st : Registry) (c : String)
    (hwf : RegistryWF st) (h : flagClear st c) :
    RegistryWF (applyOps ops st) ∧ flagClear (applyOps ops st) c := by
  induction ops generalizing st with
  | nil => exact ⟨hwf, h⟩
  | cons op rest ih =>
    have step := serverOp_preserves op st c hwf h
    exact ih (op.apply st) step.1 step.2

/-- A one-record registry is well-formed. -/
theorem registryWF_single (c : String) (r : CallRecord) : RegistryWF [(c, r)] := by
  intro k
  by_cases h : c = k <;> simp [keyCount, h]

theorem initiate_transfer_ok (env : Env) (st : Registry) (c u : String) (r : CallRecord)
    (hc : c ≠ "") (hr : rfind st c = some r)
    (hu : env.PUBLIC_URL = some u) (hu2 : u ≠ "") :
    initiate_transfer env st (some c) true
      = (TransferOutcome.ok, rset st c { r with status := "transferring" }) := by
  unfold initiate_transfer
  simp [hc, hr, hu, hu2]

theorem answerFinalWsUrl_of_params_ne_nil (env : Env) (pb : Json) (host : String)
    (h : answerQueryParams env pb ≠ []) :
    answerFinalWsUrl env pb host
      = "wss://" ++ host ++ "/voice/ws?" ++ String.intercalate "&" (answerQueryParams env pb) := by
  unfold answerFinalWsUrl
  cases hq : answerQueryParams env pb with
  | nil => exact absurd hq h
  | cons a t => rfl

theorem answerQueryParams_prod_ne_nil (env : Env) (pb : Json)
    (hprod : envName env = "production") : answerQueryParams env pb ≠ [] := by
  unfold answerQueryParams
  simp [hprod]

/-! ## Claim C1 -/

/-- Claim C1 is false on the code: `/initiate-transfer` sets `status` to
`"transferring"` but does not set `transfer_requested`, and `/answer` serves
the transfer XML only when `transfer_requested` is truthy.  Concretely, with
`CA123` registered as active (flag clear), a successful
`POST /initiate-transfer {"call_uuid":"CA123"}` yields `.ok`, but the next
`GET /answer?CallUUID=CA123` returns the stream XML, not the transfer XML,
and leaves the status `"transferring"`, not `"transferred"`. -/
theorem c1_counterexample :
    (initiate_transfer c1Env c1St (some "CA123") true).1 = TransferOutcome.ok
    ∧ (get_answer_xml c1Env (initiate_transfer c1Env c1St (some "CA123") true).2
        (some "CA123") (Json.obj []) "h.example" "https").1
        ≠ transferXml (transferAgentNumber c1Env)
    ∧ (get_answer_xml c1Env (initiate_transfer c1Env c1St (some "CA123") true).2
        (some "CA123") (Json.obj []) "h.example" "https").1
        = streamXml "https" "h.example" "wss://h.example/voice/ws"
    ∧ (rfind (get_answer_xml c1Env (initiate_transfer c1Env c1St (some "CA123") true).2
        (some "CA123") (Json.obj []) "h.example" "https").2 "CA123").map CallRecord.status
        = some "transferring" := by
  decide

/-- Claim C1 (amended): for a registry containing an active call id `c` with
a clear `transfer_requested` flag, a successful `POST /initiate-transfer`
sets the record's status to `transferring`; the next `GET /answer?CallUUID=c`
then returns the stream XML document and leaves the registry (and in
particular the `transferring` status) unchanged, because `/answer` serves the
transfer XML only when `transfer_requested` is set and `/initiate-transfer`
never sets that flag. -/
theorem c1_transfer_then_answer_serves_stream
    (env env2 : Env) (st : Registry) (c u : String) (r : CallRecord) (pb : Json)
    (host protocol : String)
    (hc : c ≠ "") (hr : rfind st c = some r) (hflag : r.transfer_requested = false)
    (hu : env.PUBLIC_URL = some u) (hu2 : u ≠ "") :
    (initiate_transfer env st (some c) true).1 = TransferOutcome.ok
    ∧ rfind (initiate_transfer env st (some c) true).2 c
        = some { r with status := "transferring" }
    ∧ get_answer_xml env2 (initiate_transfer env st (some c) true).2 (some c) pb host protocol
        = (streamXml protocol host (answerFinalWsUrl env2 pb host),
           (initiate_transfer env st (some c) true).2) := by
  rw [initiate_transfer_ok env st c u r hc hr hu hu2]
  refine ⟨rfl, rfind_rset_self st c _, ?_⟩
  apply get_answer_xml_stream
  intro r2 hr2
  rw [rfind_rset_self] at hr2
  cases hr2
  exact hflag

/-- Witness for the amended C1 theorem at a concrete registry. -/
theorem c1_transfer_then_answer_serves_stream_witness :
    (initiate_transfer c1Env c1St (some "CA123") true).1 = TransferOutcome.ok
    ∧ rfind (initiate_transfer c1Env c1St (some "CA123") true).2 "CA123"
        = some { c1Rec with status := "transferring" }
    ∧ get_answer_xml {} (initiate_transfer c1Env c1St (some "CA123") true).2
        (some "CA123") (Json.obj []) "h.example" "https"
        = (streamXml "https" "h.example" (answerFinalWsUrl {} (Json.obj []) "h.example"),
           (initiate_transfer c1Env c1St (some "CA123") true).2) :=
  c1_transfer_then_answer_serves_stream c1Env {} c1St "CA123" "https://server.example"
    c1Rec (Json.obj []) "h.example" "https" (by decide) (by decide) rfl rfl (by decide)

/-! ## Claim C2 -/

/-- Claim C2: consuming the transfer flag is exactly-once.  If an `/answer`
request for call id `c` observes `transfer_requested = true` (serving the
transfer XML), then after it completes — and after any further sequence of
server operations, none of which sets the flag — the flag of `c` is clear,
and an `/answer` request for `c` serves the stream XML and leaves the
registry unchanged. -/
theorem c2_consume_exactly_once
    (env env2 : Env) (st : Registry) (c : String) (r : CallRecord)
    (pb pb2 : Json) (host protocol host2 protocol2 : String) (ops : List ServerOp)
    (hwf : RegistryWF st) (hc : c ≠ "")
    (hr : rfind st c = some r) (hf : r.transfer_requested = true) :
    (get_answer_xml env st (some c) pb host protocol).1
        = transferXml (transferAgentNumber env)
    ∧ flagClear (applyOps ops (get_answer_xml env st (some c) pb host protocol).2) c
    ∧ get_answer_xml env2
        (applyOps ops (get_answer_xml env st (some c) pb host protocol).2)
        (some c) pb2 host2 protocol2
        = (streamXml protocol2 host2 (answerFinalWsUrl env2 pb2 host2),
           applyOps ops (get_answer_xml env st (some c) pb host protocol).2) := by
  have heq := get_answer_xml_transfer env st c r pb host protocol hc hr hf
  rw [heq]
  have hwf1 :
      RegistryWF (rset st c { r with transfer_requested := false, status := "transferred" }) :=
    registryWF_rset st c _ hwf
  have hfc1 :
      flagClear (rset st c { r with transfer_requested := false, status := "transferred" }) c := by
    intro r2 hr2
    rw [rfind_rset_self] at hr2
    cases hr2
    rfl
  have hpres := applyOps_preserves ops _ c hwf1 hfc1
  exact ⟨rfl, hpres.2, get_answer_xml_stream env2 _ c pb2 host2 protocol2 hpres.2⟩

/-- Witness for C2 at a concrete registry and a concrete operation sequence
(a detach followed by a re-attach and a recording callback). -/
theorem c2_consume_exactly_once_witness :
    (get_answer_xml {} c2St (some "CA123") (Json.obj []) "h.example" "https").1
        = transferXml (transferAgentNumber {})
    ∧ flagClear (applyOps c2Ops
        (get_answer_xml {} c2St (some "CA123") (Json.obj []) "h.example" "https").2) "CA123"
    ∧ get_answer_xml {}
        (applyOps c2Ops
          (get_answer_xml {} c2St (some "CA123") (Json.obj []) "h.example" "https").2)
        (some "CA123") (Json.obj []) "h2.example" "https"
        = (streamXml "https" "h2.example" (answerFinalWsUrl {} (Json.obj []) "h2.example"),
           applyOps c2Ops
            (get_answer_xml {} c2St (some "CA123") (Json.obj []) "h.example" "https").2) :=
  c2_consume_exactly_once {} {} c2St "CA123" c2Rec (Json.obj []) (Json.obj [])
    "h.example" "https" "h2.example" "https" c2Ops
    (registryWF_single "CA123" c2Rec) (by decide) rfl rfl

/-! ## Claim C3 -/

/-- Claim C3 is false on the code: with `ENV=production`, `get_websocket_url`
does return the fixed relay address, but the URL embedded in the stream XML
served by `/answer` is rebuilt from the request host as
`wss://<host>/voice/ws?...` (lines 401-412); the relay address is not what is
embedded. -/
theorem c3_counterexample :
    get_websocket_url c3Env "example.com" = "wss://api.pipecat.daily.co/ws/plivo"
    ∧ (get_answer_xml c3Env [] none (Json.obj []) "example.com" "https").1
        = streamXml "https" "example.com" "wss://example.com/voice/ws?serviceHost=bot.acme"
    ∧ "wss://example.com/voice/ws?serviceHost=bot.acme" ≠ "wss://api.pipecat.daily.co/ws/plivo"
    ∧ (get_answer_xml c3Env [] none (Json.obj []) "example.com" "https").1
        ≠ streamXml "https" "example.com" "wss://api.pipecat.daily.co/ws/plivo" := by
  decide

/-- Claim C3 (amended): in a production environment `get_websocket_url`
returns the fixed upstream relay address, but the WebSocket URL embedded in
the stream XML served by `/answer` is derived from the request host:
`wss://<host>/voice/ws?<query params>` (the query parameters are non-empty in
production because the `serviceHost` tag is always appended). -/
theorem c3_stream_url_is_host_derived
    (env : Env) (st : Registry) (pb : Json) (host protocol : String)
    (hprod : envName env = "production") :
    get_websocket_url env host = "wss://api.pipecat.daily.co/ws/plivo"
    ∧ (get_answer_xml env st none pb host protocol).1
        = streamXml protocol host
            ("wss://" ++ host ++ "/voice/ws?"
              ++ String.intercalate "&" (answerQueryParams env pb)) := by
  constructor
  · unfold get_websocket_url
    simp [hprod]
  · rw [get_answer_xml_stream_none]
    rw [answerFinalWsUrl_of_params_ne_nil env pb host (answerQueryParams_prod_ne_nil env pb hprod)]

/-- Witness for the amended C3 theorem at a concrete production
environment. -/
theorem c3_stream_url_is_host_derived_witness :
    get_websocket_url c3Env "example.com" = "wss://api.pipecat.daily.co/ws/plivo"
    ∧ (get_answer_xml c3Env [] none (Json.obj []) "example.com" "https").1
        = streamXml "https" "example.com"
            ("wss://" ++ "example.com" ++ "/voice/ws?"
              ++ String.intercalate "&" (answerQueryParams c3Env (Json.obj []))) :=
  c3_stream_url_is_host_derived c3Env [] (Json.obj []) "example.com" "https" (by decide)

/-! ## Claim C4 -/

/-- Claim C4 is false on the code: `/start` pre-registration overwrites an
existing record unconditionally (lines 257-263).  With `CA4` registered as
active, registering it again leaves a record whose status is `"initiated"`,
not the previous `"active"` — the status is not unchanged. -/
theorem c4_counterexample :
    (rfind c4St "CA4").map CallRecord.status = some "active"
    ∧ (rfind (preregisterCall c4St "CA4" "t1") "CA4").map CallRecord.status = some "initiated"
    ∧ ((rfind (preregisterCall c4St "CA4" "t1") "CA4").map CallRecord.status
        ≠ (rfind c4St "CA4").map CallRecord.status) := by
  decide

/-- Claim C4 (amended): registering a call id that is already present leaves
exactly one record for it, but is not a no-op: the existing record is
overwritten with a fresh one (`status = "initiated"`, cleared transfer flag,
no session), regardless of the record's previous contents. -/
theorem c4_preregister_overwrites
    (st : Registry) (c now : String) (r : CallRecord)
    (hwf : RegistryWF st) (h1 : c ≠ "") (h2 : c ≠ "unknown") (_hr : rfind st c = some r) :
    keyCount (preregisterCall st c now) c = 1
    ∧ rfind (preregisterCall st c now) c = some (freshCallRecord now)
    ∧ (freshCallRecord now).status = "initiated" := by
  unfold preregisterCall
  rw [if_pos ⟨h1, h2⟩]
  refine ⟨?_, rfind_rset_self st c _, rfl⟩
  rw [keyCount_rset]
  have := hwf c
  omega

/-- Witness for the amended C4 theorem at a concrete registry. -/
theorem c4_preregister_overwrites_witness :
    keyCount (preregisterCall c4St "CA4" "t1") "CA4" = 1
    ∧ rfind (preregisterCall c4St "CA4" "t1") "CA4" = some (freshCallRecord "t1")
    ∧ (freshCallRecord "t1").status = "initiated" :=
  c4_preregister_overwrites c4St "CA4" "t1" c4Rec (registryWF_single "CA4" c4Rec)
    (by decide) (by decide) rfl

/-! ## Claim C5 -/

/-- Claim C5 is false on the code: the WebSocket attach step sets the status
of an existing record to `"active"` unconditionally (line 739), so a record
whose status is `"transferred"` re-enters `"active"` when a session for its
call id attaches. -/
theorem c5_counterexample :
    (rfind c5St "CA5").map CallRecord.status = some "transferred"
    ∧ (rfind (attachSession c5St "CA5" 7 "/voice/ws" "t1") "CA5").map CallRecord.status
        = some "active" := by
  decide

/-- Claim C5 (amended): a WebSocket session attach for a registered call id
sets the record's status to `"active"` regardless of its previous status —
in particular a `"transferred"` record does re-enter `"active"`, so the
claimed invariant does not hold against the attach operation. -/
theorem c5_attach_reactivates
    (st : Registry) (c : String) (r : CallRecord) (ws : Session) (path now : String)
    (hr : rfind st c = some r) :
    rfind (attachSession st c ws path now) c
      = some { r with status := "active", websocket := some ws, path := some path } := by
  rw [attachSession_existing st c r ws path now hr, rfind_rset_self]

/-- Witness for the amended C5 theorem: attaching to the transferred record
`CA5` yields an active record. -/
theorem c5_attach_reactivates_witness :
    rfind (attachSession c5St "CA5" 7 "/voice/ws" "t1") "CA5"
      = some { c5Rec with status := "active", websocket := some 7, path := some "/voice/ws" } :=
  c5_attach_reactivates c5St "CA5" c5Rec 7 "/voice/ws" "t1" rfl

/-! ## Claim C6 -/

/-- Claim C6: when a WebSocket session for a registered call id ends, the
`finally` clean-up runs whether or not the bot hand-off raised; a record in
`"transferring"` status is retained with its session reference nulled, and a
record in any other status is deleted entirely (other keys untouched). -/
theorem c6_detach_semantics
    (st : Registry) (c : String) (r : CallRecord) (botRaised : Bool)
    (hwf : RegistryWF st) (hc : c ≠ "") (hr : rfind st c = some r) :
    wsSessionEnd st (some c) botRaised = detachSession st (some c)
    ∧ (r.status = "transferring" →
        rfind (detachSession st (some c)) c = some { r with websocket := none })
    ∧ (r.status ≠ "transferring" →
        rfind (detachSession st (some c)) c = none
        ∧ ∀ k, k ≠ c → rfind (detachSession st (some c)) k = rfind st k) := by
  refine ⟨?_, ?_, ?_⟩
  · unfold wsSessionEnd
    cases botRaised <;> rfl
  · intro hs
    rw [detachSession_keep st c r hc hr hs, rfind_rset_self]
  · intro hs
    rw [detachSession_delete st c r hc hr hs]
    exact ⟨rfind_rerase_self st c hwf, fun k hk => rfind_rerase_ne st c k hk⟩

/-- Witness for C6 at a concrete registry holding a transferring record,
with the bot hand-off raising. -/
theorem c6_detach_semantics_witness :
    wsSessionEnd c6St (some "CA6") true = detachSession c6St (some "CA6")
    ∧ (c6Rec.status = "transferring" →
        rfind (detachSession c6St (some "CA6")) "CA6" = some { c6Rec with websocket := none })
    ∧ (c6Rec.status ≠ "transferring" →
        rfind (detachSession c6St (some "CA6")) "CA6" = none
        ∧ ∀ k, k ≠ "CA6" → rfind (detachSession c6St (some "CA6")) k = rfind c6St k) :=
  c6_detach_semantics c6St "CA6" c6Rec true (registryWF_single "CA6" c6Rec) (by decide) rfl

/-! ## Claim C8 -/

/-- Claim C8: the recording-finished callback never raises (it is modelled as
a total function); for a call id absent from the registry it leaves the
registry untouched (so no record is created) and still returns the empty XML
acknowledgement, and for a present call id it stores the recording id and
URL on the record without changing any other field — in particular the
status. -/
theorem c8_recording_finished_best_effort
    (st : Registry) (c : String) (rid rurl : Option String) (hc : c ≠ "") :
    (rfind st c = none →
      recording_finished st (some c) rid rurl = (st, "<Response></Response>"))
    ∧ (∀ r, rfind st c = some r →
        recording_finished st (some c) rid rurl
          = (rset st c { r with recording_id := some rid, recording_url := some rurl },
             "<Response></Response>")
        ∧ rfind (recording_finished st (some c) rid rurl).1 c
            = some { r with recording_id := some rid, recording_url := some rurl }) := by
  constructor
  · intro hr
    unfold recording_finished
    simp [hc, hr]
  · intro r hr
    have h1 : recording_finished st (some c) rid rurl
        = (rset st c { r with recording_id := some rid, recording_url := some rurl },
           "<Response></Response>") := by
      unfold recording_finished
      simp [hc, hr]
    rw [h1]
    exact ⟨rfl, rfind_rset_self st c _⟩

/-- Witness for C8: a recording callback for the registered call `CA8` (the
absent branch of the conjunction is instantiated at the same registry). -/
theorem c8_recording_finished_best_effort_witness :
    (rfind c8St "CA8" = none →
      recording_finished c8St (some "CA8") (some "rec8") (some "https://rec.example/8")
        = (c8St, "<Response></Response>"))
    ∧ (∀ r, rfind c8St "CA8" = some r →
        recording_finished c8St (some "CA8") (some "rec8") (some "https://rec.example/8")
          = (rset c8St "CA8"
              { r with recording_id := some (some "rec8"),
                       recording_url := some (some "https://rec.example/8") },
             "<Response></Response>")
        ∧ rfind (recording_finished c8St (some "CA8") (some "rec8")
              (some "https://rec.example/8")).1 "CA8"
            = some { r with recording_id := some (some "rec8"),
                            recording_url := some (some "https://rec.example/8") }) :=
  c8_recording_finished_best_effort c8St "CA8" (some "rec8") (some "https://rec.example/8")
    (by decide)

/-! ## Claim C9 -/

/-- Claim C9 names a genuine code bug: with `TRANSFER_AGENT_NUMBER` set to
`+15550001111`, the `/answer` transfer branch dials the configured number,
but `/transfer-to-human` — which reads the very same setting into
`agent_number` and logs it as the transfer destination — emits XML dialing
the hardcoded literal `+919148227303` instead (line 548). -/
theorem c9_transfer_to_human_ignores_config :
    transferAgentNumber c9Env = "+15550001111"
    ∧ (get_answer_xml c9Env c9St (some "CA9") (Json.obj []) "h.example" "https").1
        = transferXml "+15550001111"
    ∧ transfer_to_human c9Env = transferXml "+919148227303"
    ∧ transfer_to_human c9Env ≠ transferXml "+15550001111" := by
  decide

/-! ## Claim C10 -/

/-- Claim C10: when the carrier's call-placement response is successful but
its JSON body carries neither `request_uuid` nor `call_uuid`, `/start` still
returns the success JSON with the literal call UUID `"unknown"`, and the
registry is left unchanged — no record is created. -/
theorem c10_unknown_uuid_no_registration
    (st : Registry) (r : CarrierResult) (now phone : String)
    (h1 : r.request_uuid = none) (h2 : r.call_uuid = none) :
    (initiate_outbound_call st r now phone).2
        = { call_uuid := "unknown", status := "call_initiated", phone_number := phone }
    ∧ (initiate_outbound_call st r now phone).1 = st := by
  unfold initiate_outbound_call extractCallUuid preregisterCall
  simp [h1, h2, pyOrStr]

/-- Witness for C10 at a concrete empty carrier response body. -/
theorem c10_unknown_uuid_no_registration_witness :
    (initiate_outbound_call [] c10Result "t0" "+15551234567").2
        = { call_uuid := "unknown", status := "call_initiated",
            phone_number := "+15551234567" }
    ∧ (initiate_outbound_call [] c10Result "t0" "+15551234567").1 = [] :=
  c10_unknown_uuid_no_registration [] c10Result "t0" "+15551234567" rfl rfl

/-! ## Round-trip machinery for claim C7

Character-level facts, inversion of the numeral/string/value serializers,
and the base64 and UTF-8 round trips. -/

theorem char_toNat_valid (c : Char) :
    c.toNat < 0xd800 ∨ (0xdfff < c.toNat ∧ c.toNat < 0x110000) := by
  have h := c.valid
  rcases h with h | ⟨h1, h2⟩
  · left
    have h2 : c.val.toNat < (0xd800 : UInt32).toNat := by
      simpa [UInt32.lt_def, BitVec.lt_def] using h
    simpa [Char.toNat] using h2
  · right
    constructor
    · have h3 : (0xdfff : UInt32).toNat < c.val.toNat := by
        simpa [UInt32.lt_def, BitVec.lt_def] using h1
      simpa [Char.toNat] using h3
    · have h3 : c.val.toNat < (0x110000 : UInt32).toNat := by
        simpa [UInt32.lt_def, BitVec.lt_def] using h2
      simpa [Char.toNat] using h3

theorem char_le_iff {a b : Char} : a ≤ b ↔ a.toNat ≤ b.toNat := by
  rw [Char.le_def]
  constructor
  · intro h
    have h2 : a.val.toNat ≤ b.val.toNat := by
      simpa [UInt32.le_def, BitVec.le_def] using h
    simpa [Char.toNat] using h2
  · intro h
    simp only [UInt32.le_def, BitVec.le_def]
    simpa [Char.toNat] using h

theorem char_ne_of_toNat_ne {a b : Char} (h : a.toNat ≠ b.toNat) : a ≠ b :=
  fun e => h (congrArg Char.toNat e)

theorem toNat_of_isDigitChar {c : Char} (h : isDigitChar c = true) :
    48 ≤ c.toNat ∧ c.toNat ≤ 57 := by
  unfold isDigitChar at h
  rw [Bool.and_eq_true, decide_eq_true_eq, decide_eq_true_eq] at h
  obtain ⟨h1, h2⟩ := h
  rw [char_le_iff] at h1 h2
  exact ⟨h1, h2⟩

theorem isDigitChar_of_toNat {c : Char} (h1 : 48 ≤ c.toNat) (h2 : c.toNat ≤ 57) :
    isDigitChar c = true := by
  unfold isDigitChar
  rw [Bool.and_eq_true, decide_eq_true_eq, decide_eq_true_eq, char_le_iff, char_le_iff]
  exact ⟨h1, h2⟩

/-- All the disequalities a digit head character needs in the parser. -/
theorem digitChar_facts {c : Char} (h : isDigitChar c = true) :
    c ≠ 'n' ∧ c ≠ 't' ∧ c ≠ 'f' ∧ c ≠ '"' ∧ c ≠ '[' ∧ c ≠ '{' ∧ c ≠ '-'
    ∧ c ≠ ']' ∧ c ≠ '}' ∧ c ≠ ',' ∧ c ≠ '.' ∧ c ≠ 'e' ∧ c ≠ 'E' ∧ c ≠ '\\'
    ∧ isWsChar c = false ∧ ¬ (c.toNat < 0x20) := by
  obtain ⟨h1, h2⟩ := toNat_of_isDigitChar h
  refine ⟨fun e => by subst e; revert h1 h2; decide,
          fun e => by subst e; revert h1 h2; decide,
          fun e => by subst e; revert h1 h2; decide,
          fun e => by subst e; revert h1 h2; decide,
          fun e => by subst e; revert h1 h2; decide,
          fun e => by subst e; revert h1 h2; decide,
          fun e => by subst e; revert h1 h2; decide,
          fun e => by subst e; revert h1 h2; decide,
          fun e => by subst e; revert h1 h2; decide,
          fun e => by subst e; revert h1 h2; decide,
          fun e => by subst e; revert h1 h2; decide,
          fun e => by subst e; revert h1 h2; decide,
          fun e => by subst e; revert h1 h2; decide,
          fun e => by subst e; revert h1 h2; decide,
          ?_, by omega⟩
  unfold isWsChar
  have e1 : c ≠ ' ' := fun e => by subst e; revert h1 h2; decide
  have e2 : c ≠ '\t' := fun e => by subst e; revert h1 h2; decide
  have e3 : c ≠ '\n' := fun e => by subst e; revert h1 h2; decide
  have e4 : c ≠ '\r' := fun e => by subst e; revert h1 h2; decide
  simp [e1, e2, e3, e4]

/-! ### Numerals -/

theorem digitChar_lt10 :
    ∀ n, n < 10 → isDigitChar (digitChar n) = true ∧ digitVal (digitChar n) = n
      ∧ (digitChar n = '0' ↔ n = 0) := by
  decide

theorem natChars_digits (n : Nat) : ∀ c ∈ natChars n, isDigitChar c = true := by
  induction n using natChars.induct with
  | case1 n h =>
    rw [natChars, if_pos h]
    intro c hc
    simp only [List.mem_singleton] at hc
    subst hc
    exact (digitChar_lt10 n h).1
  | case2 n h ih =>
    rw [natChars, if_neg h]
    intro c hc
    rcases List.mem_append.mp hc with hc | hc
    · exact ih c hc
    · simp only [List.mem_singleton] at hc
      subst hc
      exact (digitChar_lt10 (n % 10) (by omega)).1

theorem natChars_head_digit (n : Nat) :
    ∃ c t, natChars n = c :: t ∧ isDigitChar c = true := by
  induction n using natChars.induct with
  | case1 n h =>
    exact ⟨digitChar n, [], by rw [natChars, if_pos h], (digitChar_lt10 n h).1⟩
  | case2 n h ih =>
    obtain ⟨c, t, hct, hcd⟩ := ih
    refine ⟨c, t ++ [digitChar (n % 10)], ?_, hcd⟩
    rw [natChars, if_neg h, hct]
    rfl

theorem natChars_head_ne_zero (n : Nat) :
    1 ≤ n → ∀ c t, natChars n = c :: t → c ≠ '0' := by
  induction n using natChars.induct with
  | case1 n h =>
    intro hn c t hct
    rw [natChars, if_pos h] at hct
    cases hct
    intro e
    have := (digitChar_lt10 n h).2.2.mp e
    omega
  | case2 n h ih =>
    intro _ c t hct
    rw [natChars, if_neg h] at hct
    obtain ⟨c0, t0, hct0, _⟩ := natChars_head_digit (n / 10)
    rw [hct0] at hct
    simp only [List.cons_append, List.cons.injEq] at hct
    rw [← hct.1]
    exact ih (by omega) c0 t0 hct0

theorem natChars_no_leading_zero (n : Nat) :
    ∀ c t, natChars n = c :: t → t ≠ [] → c ≠ '0' := by
  induction n using natChars.induct with
  | case1 n h =>
    intro c t hct ht
    rw [natChars, if_pos h] at hct
    cases hct
    exact absurd rfl ht
  | case2 n h _ =>
    intro c t hct _
    rw [natChars, if_neg h] at hct
    obtain ⟨c0, t0, hct0, _⟩ := natChars_head_digit (n / 10)
    rw [hct0] at hct
    simp only [List.cons_append, List.cons.injEq] at hct
    rw [← hct.1]
    exact natChars_head_ne_zero (n / 10) (by omega) c0 t0 hct0

theorem digitsValAux_append (acc : Nat) (xs ys : List Char) :
    digitsValAux acc (xs ++ ys) = digitsValAux (digitsValAux acc xs) ys := by
  induction xs generalizing acc with
  | nil => rfl
  | cons c xs ih =>
    show digitsValAux (acc * 10 + digitVal c) (xs ++ ys)
        = digitsValAux (digitsValAux (acc * 10 + digitVal c) xs) ys
    exact ih (acc * 10 + digitVal c)

theorem digitsVal_natChars (n : Nat) : digitsVal (natChars n) = n := by
  induction n using natChars.induct with
  | case1 n h =>
    rw [natChars, if_pos h]
    have hd := (digitChar_lt10 n h).2.1
    show 0 * 10 + digitVal (digitChar n) = n
    omega
  | case2 n h ih =>
    rw [natChars, if_neg h]
    unfold digitsVal at ih ⊢
    rw [digitsValAux_append, ih]
    have hd := (digitChar_lt10 (n % 10) (by omega)).2.1
    show n / 10 * 10 + digitVal (digitChar (n % 10)) = n
    omega

/-- The input after a digit run does not continue it. -/
def notDigitHead : List Char → Prop
  | [] => True
  | c :: _ => isDigitChar c = false

theorem spanDigits_append (ds r : List Char)
    (hds : ∀ c ∈ ds, isDigitChar c = true) (hr : notDigitHead r) :
    spanDigits (ds ++ r) = (ds, r) := by
  induction ds with
  | nil =>
    cases r with
    | nil => rfl
    | cons c t =>
      unfold notDigitHead at hr
      simp [spanDigits, hr]
  | cons c ds ih =>
    have hc := hds c (List.mem_cons_self c ds)
    have ih2 := ih (fun d hd => hds d (List.mem_cons_of_mem c hd))
    simp [spanDigits, hc, ih2]

theorem numBoundary_notDigitHead (r : List Char) (hr : numBoundary r) : notDigitHead r := by
  cases r with
  | nil => trivial
  | cons c t => exact hr.1

theorem parseNatNum_eq_of_span (s : List Char) (d : Char) (ds r : List Char)
    (h : spanDigits s = (d :: ds, r)) :
    parseNatNum s
      = if d = '0' ∧ ds ≠ [] then none
        else
          match r with
          | [] => some (digitsVal (d :: ds), [])
          | c :: tail =>
            if c = '.' ∨ c = 'e' ∨ c = 'E' then none else some (digitsVal (d :: ds), c :: tail) := by
  unfold parseNatNum
  rw [h]

theorem parseNatNum_natChars (n : Nat) (r : List Char) (hr : numBoundary r) :
    parseNatNum (natChars n ++ r) = some (n, r) := by
  have hspan : spanDigits (natChars n ++ r) = (natChars n, r) :=
    spanDigits_append _ _ (natChars_digits n) (numBoundary_notDigitHead r hr)
  obtain ⟨c, t, hct, _⟩ := natChars_head_digit n
  rw [hct] at hspan
  have hzero : ¬ (c = '0' ∧ t ≠ []) := by
    rintro ⟨h0, hne⟩
    exact natChars_no_leading_zero n c t hct hne h0
  rw [hct, parseNatNum_eq_of_span _ c t r hspan, if_neg hzero]
  cases r with
  | nil =>
    rw [← hct, digitsVal_natChars]
  | cons c0 r0 =>
    obtain ⟨_, hdot, he, hE⟩ := hr
    show (if c0 = '.' ∨ c0 = 'e' ∨ c0 = 'E' then none
          else some (digitsVal (c :: t), c0 :: r0)) = some (n, c0 :: r0)
    rw [if_neg (by simp [hdot, he, hE]), ← hct, digitsVal_natChars]

theorem parseNumber_intChars (n : Int) (r : List Char) (hr : numBoundary r) :
    parseNumber (intChars n ++ r) = some (.num n, r) := by
  cases n with
  | ofNat m =>
    show parseNumber (natChars m ++ r) = _
    obtain ⟨c, t, hct, hcd⟩ := natChars_head_digit m
    have hnum := parseNatNum_natChars m r hr
    rw [hct]
    rw [hct] at hnum
    simp only [List.cons_append] at hnum ⊢
    rw [parseNumber, if_neg (digitChar_facts hcd).2.2.2.2.2.2.1, hnum]
    rfl
  | negSucc m =>
    show parseNumber ('-' :: (natChars (m + 1) ++ r)) = _
    rw [parseNumber, if_pos rfl, parseNatNum_natChars (m + 1) r hr]
    have he : (-((m + 1 : Nat) : Int)) = Int.negSucc m := by
      rw [Int.negSucc_eq]
      push_cast
      ring
    show some (Json.num (-((m + 1 : Nat) : Int)), r) = some (Json.num (Int.negSucc m), r)
    rw [he]

/-! ### Strings -/

theorem parseHexDigit_hexDigitChar : ∀ d, d < 16 → parseHexDigit (hexDigitChar d) = some d := by
  decide

theorem parseHex4_hexDigitChar (a b c d : Nat)
    (ha : a < 16) (hb : b < 16) (hc : c < 16) (hd : d < 16) :
    parseHex4 (hexDigitChar a) (hexDigitChar b) (hexDigitChar c) (hexDigitChar d)
      = some (a * 4096 + b * 256 + c * 16 + d) := by
  unfold parseHex4
  rw [parseHexDigit_hexDigitChar a ha, parseHexDigit_hexDigitChar b hb,
      parseHexDigit_hexDigitChar c hc, parseHexDigit_hexDigitChar d hd]

theorem psb_quote (f : Nat) (r : List Char) :
    parseStringBodyF (f + 1) ('"' :: r) = some ([], r) := by
  rw [parseStringBodyF]
  norm_num

theorem psb_plain (f : Nat) (c : Char) (r : List Char)
    (hq : c ≠ '"') (hb : c ≠ '\\') (hctl : ¬ c.toNat < 0x20) :
    parseStringBodyF (f + 1) (c :: r)
      = (parseStringBodyF f r).map (fun p => (c :: p.1, p.2)) := by
  rw [parseStringBodyF, if_neg hq, if_neg hb, if_neg hctl]

theorem psb_esc_quote (f : Nat) (r : List Char) :
    parseStringBodyF (f + 1) ('\\' :: '"' :: r)
      = (parseStringBodyF f r).map (fun p => ('"' :: p.1, p.2)) := by
  rw [parseStringBodyF]
  norm_num
  simp [parseEscapeF, escapeCode]

theorem psb_esc_backslash (f : Nat) (r : List Char) :
    parseStringBodyF (f + 1) ('\\' :: '\\' :: r)
      = (parseStringBodyF f r).map (fun p => ('\\' :: p.1, p.2)) := by
  rw [parseStringBodyF]
  norm_num
  simp [parseEscapeF, escapeCode]

theorem psb_esc_b (f : Nat) (r : List Char) :
    parseStringBodyF (f + 1) ('\\' :: 'b' :: r)
      = (parseStringBodyF f r).map (fun p => ('\x08' :: p.1, p.2)) := by
  rw [parseStringBodyF]
  norm_num
  simp [parseEscapeF, escapeCode]

theorem psb_esc_t (f : Nat) (r : List Char) :
    parseStringBodyF (f + 1) ('\\' :: 't' :: r)
      = (parseStringBodyF f r).map (fun p => ('\t' :: p.1, p.2)) := by
  rw [parseStringBodyF]
  norm_num
  simp [parseEscapeF, escapeCode]

theorem psb_esc_n (f : Nat) (r : List Char) :
    parseStringBodyF (f + 1) ('\\' :: 'n' :: r)
      = (parseStringBodyF f r).map (fun p => ('\n' :: p.1, p.2)) := by
  rw [parseStringBodyF]
  norm_num
  simp [parseEscapeF, escapeCode]

theorem psb_esc_f (f : Nat) (r : List Char) :
    parseStringBodyF (f + 1) ('\\' :: 'f' :: r)
      = (parseStringBodyF f r).map (fun p => ('\x0c' :: p.1, p.2)) := by
  rw [parseStringBodyF]
  norm_num
  simp [parseEscapeF, escapeCode]

theorem psb_esc_r (f : Nat) (r : List Char) :
    parseStringBodyF (f + 1) ('\\' :: 'r' :: r)
      = (parseStringBodyF f r).map (fun p => ('\r' :: p.1, p.2)) := by
  rw [parseStringBodyF]
  norm_num
  simp [parseEscapeF, escapeCode]

theorem psb_u_single (f : Nat) (h1 h2 h3 h4 : Char) (r : List Char) (v : Nat)
    (hx : parseHex4 h1 h2 h3 h4 = some v)
    (hv1 : ¬ (0xd800 ≤ v ∧ v < 0xdc00)) (hv2 : ¬ (0xdc00 ≤ v ∧ v < 0xe000)) :
    parseStringBodyF (f + 1) ('\\' :: 'u' :: h1 :: h2 :: h3 :: h4 :: r)
      = (parseStringBodyF f r).map (fun p => (Char.ofNat v :: p.1, p.2)) := by
  rw [parseStringBodyF, if_neg (by decide : ¬ ('\\' : Char) = '"'), if_pos rfl,
      parseEscapeF, hx]
  simp [hv1, hv2]

theorem psb_u_pair (f : Nat) (h1 h2 h3 h4 h5 h6 h7 h8 : Char) (r : List Char) (v w : Nat)
    (hx : parseHex4 h1 h2 h3 h4 = some v) (hy : parseHex4 h5 h6 h7 h8 = some w)
    (hv : 0xd800 ≤ v ∧ v < 0xdc00) (hw : 0xdc00 ≤ w ∧ w < 0xe000) :
    parseStringBodyF (f + 1)
        ('\\' :: 'u' :: h1 :: h2 :: h3 :: h4 :: '\\' :: 'u' :: h5 :: h6 :: h7 :: h8 :: r)
      = (parseStringBodyF f r).map
          (fun p => (Char.ofNat (0x10000 + (v - 0xd800) * 0x400 + (w - 0xdc00)) :: p.1, p.2)) := by
  rw [parseStringBodyF, if_neg (by decide : ¬ ('\\' : Char) = '"'), if_pos rfl,
      parseEscapeF, hx]
  show (if 0xd800 ≤ v ∧ v < 0xdc00 then
          parseLowSurrogateF f v ('\\' :: 'u' :: h5 :: h6 :: h7 :: h8 :: r)
        else if 0xdc00 ≤ v ∧ v < 0xe000 then none
        else (parseStringBodyF f ('\\' :: 'u' :: h5 :: h6 :: h7 :: h8 :: r)).map
          (fun p => (Char.ofNat v :: p.1, p.2))) = _
  rw [if_pos hv, parseLowSurrogateF, hy]
  simp [hw]

theorem escapeChar_length_pos (c : Char) : 1 ≤ (escapeChar c).length := by
  unfold escapeChar
  split_ifs <;> simp [hex4]

theorem escapeChars_length_ge (s : List Char) : s.length ≤ (escapeChars s).length := by
  induction s with
  | nil => simp [escapeChars]
  | cons c s ih =>
    show (c :: s).length ≤ (escapeChar c ++ escapeChars s).length
    rw [List.length_append]
    have := escapeChar_length_pos c
    simp only [List.length_cons]
    omega

theorem parseStringBodyF_escape (s : List Char) :
    ∀ fuel rest, s.length < fuel →
      parseStringBodyF fuel (escapeChars s ++ '"' :: rest) = some (s, rest) := by
  induction s with
  | nil =>
    intro fuel rest hf
    cases fuel with
    | zero => omega
    | succ f => exact psb_quote f rest
  | cons c s ih =>
    intro fuel rest hf
    cases fuel with
    | zero => omega
    | succ f =>
      have hf2 : s.length < f := by
        simp only [List.length_cons] at hf
        omega
      have hih := ih f rest hf2
      have hsplit : escapeChars (c :: s) ++ '"' :: rest
          = escapeChar c ++ (escapeChars s ++ '"' :: rest) := by
        show (escapeChar c ++ escapeChars s) ++ '"' :: rest = _
        rw [List.append_assoc]
      rw [hsplit]
      unfold escapeChar
      by_cases h1 : c = '"'
      · subst h1
        rw [if_pos rfl]
        show parseStringBodyF (f + 1) ('\\' :: '"' :: (escapeChars s ++ '"' :: rest))
            = some ('"' :: s, rest)
        rw [psb_esc_quote f _, hih]
        rfl
      rw [if_neg h1]
      by_cases h2 : c = '\\'
      · subst h2
        rw [if_pos rfl]
        show parseStringBodyF (f + 1) ('\\' :: '\\' :: (escapeChars s ++ '"' :: rest))
            = some ('\\' :: s, rest)
        rw [psb_esc_backslash f _, hih]
        rfl
      rw [if_neg h2]
      by_cases h3 : c = '\x08'
      · subst h3
        rw [if_pos rfl]
        show parseStringBodyF (f + 1) ('\\' :: 'b' :: (escapeChars s ++ '"' :: rest))
            = some ('\x08' :: s, rest)
        rw [psb_esc_b f _, hih]
        rfl
      rw [if_neg h3]
      by_cases h4 : c = '\t'
      · subst h4
        rw [if_pos rfl]
        show parseStringBodyF (f + 1) ('\\' :: 't' :: (escapeChars s ++ '"' :: rest))
            = some ('\t' :: s, rest)
        rw [psb_esc_t f _, hih]
        rfl
      rw [if_neg h4]
      by_cases h5 : c = '\n'
      · subst h5
        rw [if_pos rfl]
        show parseStringBodyF (f + 1) ('\\' :: 'n' :: (escapeChars s ++ '"' :: rest))
            = some ('\n' :: s, rest)
        rw [psb_esc_n f _, hih]
        rfl
      rw [if_neg h5]
      by_cases h6 : c = '\x0c'
      · subst h6
        rw [if_pos rfl]
        show parseStringBodyF (f + 1) ('\\' :: 'f' :: (escapeChars s ++ '"' :: rest))
            = some ('\x0c' :: s, rest)
        rw [psb_esc_f f _, hih]
        rfl
      rw [if_neg h6]
      by_cases h7 : c = '\r'
      · subst h7
        rw [if_pos rfl]
        show parseStringBodyF (f + 1) ('\\' :: 'r' :: (escapeChars s ++ '"' :: rest))
            = some ('\r' :: s, rest)
        rw [psb_esc_r f _, hih]
        rfl
      rw [if_neg h7]
      by_cases h8 : 0x20 ≤ c.toNat ∧ c.toNat ≤ 0x7e
      · rw [if_pos h8]
        show parseStringBodyF (f + 1) (c :: (escapeChars s ++ '"' :: rest))
            = some (c :: s, rest)
        rw [psb_plain f c _ h1 h2 (by omega), hih]
        rfl
      rw [if_neg h8]
      by_cases h9 : c.toNat < 0x10000
      · rw [if_pos h9]
        have hV : c.toNat / 4096 % 16 * 4096 + c.toNat / 256 % 16 * 256
            + c.toNat / 16 % 16 * 16 + c.toNat % 16 = c.toNat := by
          omega
        have hx := parseHex4_hexDigitChar (c.toNat / 4096 % 16) (c.toNat / 256 % 16)
          (c.toNat / 16 % 16) (c.toNat % 16) (by omega) (by omega) (by omega) (by omega)
        rw [hV] at hx
        have hs1 : ¬ (0xd800 ≤ c.toNat ∧ c.toNat < 0xdc00) := by
          rcases char_toNat_valid c with h | ⟨h, _⟩ <;> omega
        have hs2 : ¬ (0xdc00 ≤ c.toNat ∧ c.toNat < 0xe000) := by
          rcases char_toNat_valid c with h | ⟨h, _⟩ <;> omega
        show parseStringBodyF (f + 1) ('\\' :: 'u'
            :: hexDigitChar (c.toNat / 4096 % 16) :: hexDigitChar (c.toNat / 256 % 16)
            :: hexDigitChar (c.toNat / 16 % 16) :: hexDigitChar (c.toNat % 16)
            :: (escapeChars s ++ '"' :: rest)) = some (c :: s, rest)
        rw [psb_u_single f _ _ _ _ _ c.toNat hx hs1 hs2, hih]
        simp
      · rw [if_neg h9]
        have hlt : c.toNat < 0x110000 := by
          rcases char_toNat_valid c with h | ⟨_, h⟩ <;> omega
        have hVhi : (0xd800 + (c.toNat - 0x10000) / 0x400) / 4096 % 16 * 4096
            + (0xd800 + (c.toNat - 0x10000) / 0x400) / 256 % 16 * 256
            + (0xd800 + (c.toNat - 0x10000) / 0x400) / 16 % 16 * 16
            + (0xd800 + (c.toNat - 0x10000) / 0x400) % 16
            = 0xd800 + (c.toNat - 0x10000) / 0x400 := by
          omega
        have hVlo : (0xdc00 + (c.toNat - 0x10000) % 0x400) / 4096 % 16 * 4096
            + (0xdc00 + (c.toNat - 0x10000) % 0x400) / 256 % 16 * 256
            + (0xdc00 + (c.toNat - 0x10000) % 0x400) / 16 % 16 * 16
            + (0xdc00 + (c.toNat - 0x10000) % 0x400) % 16
            = 0xdc00 + (c.toNat - 0x10000) % 0x400 := by
          omega
        have hx := parseHex4_hexDigitChar ((0xd800 + (c.toNat - 0x10000) / 0x400) / 4096 % 16)
          ((0xd800 + (c.toNat - 0x10000) / 0x400) / 256 % 16)
          ((0xd800 + (c.toNat - 0x10000) / 0x400) / 16 % 16)
          ((0xd800 + (c.toNat - 0x10000) / 0x400) % 16)
          (by omega) (by omega) (by omega) (by omega)
        rw [hVhi] at hx
        have hy := parseHex4_hexDigitChar ((0xdc00 + (c.toNat - 0x10000) % 0x400) / 4096 % 16)
          ((0xdc00 + (c.toNat - 0x10000) % 0x400) / 256 % 16)
          ((0xdc00 + (c.toNat - 0x10000) % 0x400) / 16 % 16)
          ((0xdc00 + (c.toNat - 0x10000) % 0x400) % 16)
          (by omega) (by omega) (by omega) (by omega)
        rw [hVlo] at hy
        have hv : 0xd800 ≤ 0xd800 + (c.toNat - 0x10000) / 0x400
            ∧ 0xd800 + (c.toNat - 0x10000) / 0x400 < 0xdc00 := by
          omega
        have hw : 0xdc00 ≤ 0xdc00 + (c.toNat - 0x10000) % 0x400
            ∧ 0xdc00 + (c.toNat - 0x10000) % 0x400 < 0xe000 := by
          omega
        have hcomb : 0x10000 + (0xd800 + (c.toNat - 0x10000) / 0x400 - 0xd800) * 0x400
            + (0xdc00 + (c.toNat - 0x10000) % 0x400 - 0xdc00) = c.toNat := by
          omega
        show parseStringBodyF (f + 1) ('\\' :: 'u'
            :: hexDigitChar ((0xd800 + (c.toNat - 0x10000) / 0x400) / 4096 % 16)
            :: hexDigitChar ((0xd800 + (c.toNat - 0x10000) / 0x400) / 256 % 16)
            :: hexDigitChar ((0xd800 + (c.toNat - 0x10000) / 0x400) / 16 % 16)
            :: hexDigitChar ((0xd800 + (c.toNat - 0x10000) / 0x400) % 16)
            :: '\\' :: 'u'
            :: hexDigitChar ((0xdc00 + (c.toNat - 0x10000) % 0x400) / 4096 % 16)
            :: hexDigitChar ((0xdc00 + (c.toNat - 0x10000) % 0x400) / 256 % 16)
            :: hexDigitChar ((0xdc00 + (c.toNat - 0x10000) % 0x400) / 16 % 16)
            :: hexDigitChar ((0xdc00 + (c.toNat - 0x10000) % 0x400) % 16)
            :: (escapeChars s ++ '"' :: rest)) = some (c :: s, rest)
        rw [psb_u_pair f _ _ _ _ _ _ _ _ _ _ _ hx hy hv hw, hih]
        have hfin : 65536 + (c.toNat - 65536) / 1024 * 1024 + (c.toNat - 65536) % 1024
            = c.toNat := by omega
        simp [hfin]

/-- Inversion of the string serializer through the fueled parser wrapper. -/
theorem parseStringBody_escape (s rest : List Char) :
    parseStringBody (escapeChars s ++ '"' :: rest) = some (s, rest) := by
  unfold parseStringBody
  apply parseStringBodyF_escape
  have h := escapeChars_length_ge s
  rw [List.length_append]
  omega

/-! ### Whitespace and head characters of serialized values -/

theorem skipWs_not_ws (c : Char) (r : List Char) (h : isWsChar c = false) :
    skipWs (c :: r) = c :: r := by
  rw [skipWs, if_neg (by simp [h])]

theorem skipWs_space (r : List Char) : skipWs (' ' :: r) = skipWs r := by
  rw [skipWs, if_pos (by decide : isWsChar ' ' = true)]

theorem jweight_pos (j : Json) : 1 ≤ jweight j := by
  cases j <;> rw [jweight] <;> omega

/-- Every serialized value starts with one of the value-head characters. -/
theorem dumps_head (j : Json) : ∃ c t, Json.dumpsL j = c :: t ∧ goodHead c := by
  cases j with
  | null => exact ⟨'n', ['u', 'l', 'l'], by rw [Json.dumpsL], Or.inl rfl⟩
  | bool b =>
    cases b with
    | true => exact ⟨'t', ['r', 'u', 'e'], by rw [Json.dumpsL], Or.inr (Or.inl rfl)⟩
    | false =>
      exact ⟨'f', ['a', 'l', 's', 'e'], by rw [Json.dumpsL], Or.inr (Or.inr (Or.inl rfl))⟩
  | num n =>
    cases n with
    | ofNat m =>
      obtain ⟨c, t, hct, hcd⟩ := natChars_head_digit m
      refine ⟨c, t, ?_,
        Or.inr (Or.inr (Or.inr (Or.inr (Or.inr (Or.inr (Or.inr hcd))))))⟩
      rw [Json.dumpsL, intChars]
      exact hct
    | negSucc m =>
      refine ⟨'-', natChars (m + 1), ?_,
        Or.inr (Or.inr (Or.inr (Or.inr (Or.inr (Or.inr (Or.inl rfl))))))⟩
      rw [Json.dumpsL, intChars]
  | str t =>
    exact ⟨'"', escapeChars t.toList ++ ['"'], by rw [Json.dumpsL],
      Or.inr (Or.inr (Or.inr (Or.inl rfl)))⟩
  | arr l =>
    cases l with
    | nil =>
      exact ⟨'[', [']'], by rw [Json.dumpsL],
        Or.inr (Or.inr (Or.inr (Or.inr (Or.inl rfl))))⟩
    | cons j0 rest =>
      exact ⟨'[', Json.dumpsL j0 ++ Json.dumpsArr rest ++ [']'], by rw [Json.dumpsL],
        Or.inr (Or.inr (Or.inr (Or.inr (Or.inl rfl))))⟩
  | obj l =>
    cases l with
    | nil =>
      exact ⟨'{', ['}'], by rw [Json.dumpsL],
        Or.inr (Or.inr (Or.inr (Or.inr (Or.inr (Or.inl rfl)))))⟩
    | cons p rest =>
      obtain ⟨k, v⟩ := p
      exact ⟨'{', '"' :: (escapeChars k.toList ++ ['"', ':', ' ']) ++ Json.dumpsL v
          ++ Json.dumpsObj rest ++ ['}'], by rw [Json.dumpsL],
        Or.inr (Or.inr (Or.inr (Or.inr (Or.inr (Or.inl rfl)))))⟩

theorem goodHead_not_ws {c : Char} (h : goodHead c) : isWsChar c = false := by
  rcases h with h | h | h | h | h | h | h | h
  · subst h; decide
  · subst h; decide
  · subst h; decide
  · subst h; decide
  · subst h; decide
  · subst h; decide
  · subst h; decide
  · exact (digitChar_facts h).2.2.2.2.2.2.2.2.2.2.2.2.2.2.1

theorem goodHead_ne_rbracket {c : Char} (h : goodHead c) : c ≠ ']' := by
  rcases h with h | h | h | h | h | h | h | h
  · subst h; decide
  · subst h; decide
  · subst h; decide
  · subst h; decide
  · subst h; decide
  · subst h; decide
  · subst h; decide
  · exact (digitChar_facts h).2.2.2.2.2.2.2.1

theorem skipWs_dumps (j : Json) (r : List Char) :
    skipWs (Json.dumpsL j ++ r) = Json.dumpsL j ++ r := by
  obtain ⟨c, t, hct, hg⟩ := dumps_head j
  rw [hct, List.cons_append]
  exact skipWs_not_ws c (t ++ r) (goodHead_not_ws hg)

/-- An array tail (`", …"` or the closing bracket) never extends a numeral. -/
theorem numBoundary_dumpsArr (l : List Json) (r : List Char) :
    numBoundary (Json.dumpsArr l ++ ']' :: r) := by
  cases l with
  | nil =>
    rw [Json.dumpsArr, List.nil_append]
    exact ⟨by decide, by decide, by decide, by decide⟩
  | cons j t =>
    rw [Json.dumpsArr, List.cons_append]
    exact ⟨by decide, by decide, by decide, by decide⟩

/-- An object tail (`", …"` or the closing brace) never extends a numeral. -/
theorem numBoundary_dumpsObj (l : List (String × Json)) (r : List Char) :
    numBoundary (Json.dumpsObj l ++ '}' :: r) := by
  cases l with
  | nil =>
    rw [Json.dumpsObj, List.nil_append]
    exact ⟨by decide, by decide, by decide, by decide⟩
  | cons p t =>
    obtain ⟨k, v⟩ := p
    rw [Json.dumpsObj, List.cons_append]
    exact ⟨by decide, by decide, by decide, by decide⟩

theorem wf_arr_cons {j : Json} {l : List Json} (h : Json.wf (.arr (j :: l)) = true) :
    Json.wf j = true ∧ Json.wfElems l = true := by
  rw [Json.wf, Json.wfElems] at h
  simp only [Bool.and_eq_true] at h
  exact h

theorem wf_obj_cons {k : String} {v : Json} {l : List (String × Json)}
    (h : Json.wf (.obj ((k, v) :: l)) = true) :
    keysUnique ((k, v) :: l) = true ∧ Json.wf v = true ∧ Json.wfMembers l = true := by
  rw [Json.wf, Json.wfMembers] at h
  simp only [Bool.and_eq_true] at h
  exact ⟨h.1, h.2.1, h.2.2⟩

theorem wfElems_cons {j : Json} {l : List Json} (h : Json.wfElems (j :: l) = true) :
    Json.wf j = true ∧ Json.wfElems l = true := by
  rw [Json.wfElems] at h
  simp only [Bool.and_eq_true] at h
  exact h

theorem wfMembers_cons {k : String} {v : Json} {l : List (String × Json)}
    (h : Json.wfMembers ((k, v) :: l) = true) :
    Json.wf v = true ∧ Json.wfMembers l = true := by
  rw [Json.wfMembers] at h
  simp only [Bool.and_eq_true] at h
  exact h

theorem string_mk_toList (s : String) : String.mk s.toList = s := rfl

/-! ### `foldInsert` is the identity on duplicate-free member lists -/

theorem keysUnique_cons {k : String} {v : Json} {l : List (String × Json)}
    (h : keysUnique ((k, v) :: l) = true) :
    (∀ p ∈ l, p.1 ≠ k) ∧ keysUnique l = true := by
  rw [keysUnique] at h
  simp only [Bool.and_eq_true, Bool.not_eq_true', List.any_eq_false,
    beq_eq_false_iff_ne] at h
  exact ⟨fun p hp => by simpa using h.1 p hp, h.2⟩

theorem objInsert_append (acc : List (String × Json)) (p : String × Json)
    (h : ∀ q ∈ acc, q.1 ≠ p.1) : objInsert acc p = acc ++ [p] := by
  induction acc with
  | nil => rfl
  | cons q t ih =>
    obtain ⟨k0, v0⟩ := q
    rw [objInsert, if_neg (h (k0, v0) (List.mem_cons_self _ _)),
        ih (fun q hq => h q (List.mem_cons_of_mem _ hq))]
    rfl

theorem foldl_objInsert (l : List (String × Json)) : ∀ acc : List (String × Json),
    (∀ p ∈ l, ∀ q ∈ acc, q.1 ≠ p.1) → keysUnique l = true →
    List.foldl objInsert acc l = acc ++ l := by
  induction l with
  | nil =>
    intro acc _ _
    rw [List.foldl_nil, List.append_nil]
  | cons p t ih =>
    intro acc hd hk
    obtain ⟨k, v⟩ := p
    obtain ⟨hnot, hk2⟩ := keysUnique_cons hk
    have ha : ∀ p2 ∈ t, ∀ q ∈ acc ++ [(k, v)], q.1 ≠ p2.1 := by
      intro p2 hp2 q hq
      rcases List.mem_append.mp hq with hq | hq
      · exact hd p2 (List.mem_cons_of_mem _ hp2) q hq
      · simp only [List.mem_singleton] at hq
        subst hq
        exact Ne.symm (hnot p2 hp2)
    rw [List.foldl_cons,
        objInsert_append acc (k, v) (fun q hq => hd (k, v) (List.mem_cons_self _ _) q hq),
        ih (acc ++ [(k, v)]) ha hk2]
    simp

/-- Parsing the serialization of a duplicate-free object rebuilds exactly its
member list. -/
theorem foldInsert_id (l : List (String × Json)) (h : keysUnique l = true) :
    foldInsert l = l := by
  unfold foldInsert
  rw [foldl_objInsert l [] (fun p _ q hq => absurd hq (List.not_mem_nil q)) h,
      List.nil_append]

/-! ### One-step reductions of `parseValue` at each head character -/

theorem pv_null (f : Nat) (s r : List Char) (hs : skipWs s = 'n' :: 'u' :: 'l' :: 'l' :: r) :
    parseValue (f + 1) s = some (.null, r) := by
  rw [parseValue, hs]; rfl

theorem pv_true (f : Nat) (s r : List Char) (hs : skipWs s = 't' :: 'r' :: 'u' :: 'e' :: r) :
    parseValue (f + 1) s = some (.bool true, r) := by
  rw [parseValue, hs]; rfl

theorem pv_false (f : Nat) (s r : List Char)
    (hs : skipWs s = 'f' :: 'a' :: 'l' :: 's' :: 'e' :: r) :
    parseValue (f + 1) s = some (.bool false, r) := by
  rw [parseValue, hs]; rfl

theorem pv_str (f : Nat) (s rest : List Char) (hs : skipWs s = '"' :: rest) :
    parseValue (f + 1) s
      = Option.map (fun p : List Char × List Char => (Json.str (String.mk p.1), p.2))
          (parseStringBody rest) := by
  rw [parseValue, hs]; rfl

theorem pv_arr_nil (f : Nat) (s r : List Char) (hs : skipWs s = '[' :: ']' :: r) :
    parseValue (f + 1) s = some (.arr [], r) := by
  rw [parseValue, hs]; rfl

theorem pv_arr_cons (f : Nat) (s rest : List Char) (c2 : Char) (r2 : List Char)
    (hs : skipWs s = '[' :: rest) (h2 : skipWs rest = c2 :: r2) (hne : c2 ≠ ']') :
    parseValue (f + 1) s
      = Option.map (fun p : List Json × List Char => (Json.arr p.1, p.2))
          (parseElems f (c2 :: r2)) := by
  rw [parseValue, hs]
  show (match skipWs rest with
        | [] => none
        | c2 :: r2 =>
          if c2 = ']' then some (Json.arr [], r2)
          else Option.map (fun p : List Json × List Char => (Json.arr p.1, p.2))
            (parseElems f (c2 :: r2))) = _
  rw [h2]
  show (if c2 = ']' then some (Json.arr [], r2)
        else Option.map (fun p : List Json × List Char => (Json.arr p.1, p.2))
          (parseElems f (c2 :: r2))) = _
  rw [if_neg hne]

theorem pv_obj_nil (f : Nat) (s r : List Char) (hs : skipWs s = '{' :: '}' :: r) :
    parseValue (f + 1) s = some (.obj [], r) := by
  rw [parseValue, hs]; rfl

theorem pv_obj_cons (f : Nat) (s rest : List Char) (c2 : Char) (r2 : List Char)
    (hs : skipWs s = '{' :: rest) (h2 : skipWs rest = c2 :: r2) (hne : c2 ≠ '}') :
    parseValue (f + 1) s
      = Option.map (fun p : List (String × Json) × List Char => (Json.obj (foldInsert p.1), p.2))
          (parseMembers f (c2 :: r2)) := by
  rw [parseValue, hs]
  show (match skipWs rest with
        | [] => none
        | c2 :: r2 =>
          if c2 = '}' then some (Json.obj [], r2)
          else Option.map (fun p : List (String × Json) × List Char =>
              (Json.obj (foldInsert p.1), p.2))
            (parseMembers f (c2 :: r2))) = _
  rw [h2]
  show (if c2 = '}' then some (Json.obj [], r2)
        else Option.map (fun p : List (String × Json) × List Char =>
            (Json.obj (foldInsert p.1), p.2))
          (parseMembers f (c2 :: r2))) = _
  rw [if_neg hne]

theorem pv_digit (f : Nat) (s rest : List Char) (c : Char) (hs : skipWs s = c :: rest)
    (hd : isDigitChar c = true) :
    parseValue (f + 1) s = parseNumber (c :: rest) := by
  rw [parseValue, hs]
  obtain ⟨e1, e2, e3, e4, e5, e6, _⟩ := digitChar_facts hd
  show (if c = 'n' then _ else _) = _
  rw [if_neg e1, if_neg e2, if_neg e3, if_neg e4, if_neg e5, if_neg e6,
      if_pos (Or.inr hd)]

theorem pv_neg (f : Nat) (s rest : List Char) (hs : skipWs s = '-' :: rest) :
    parseValue (f + 1) s = parseNumber ('-' :: rest) := by
  rw [parseValue, hs]; rfl

/-- A serialized object member followed by anything, in right-nested cons
form. -/
theorem dumpsMember_norm (k : String) (v : Json) (x : List Char) :
    Json.dumpsMember k v ++ x
      = '"' :: (escapeChars k.toList ++ '"' :: ':' :: ' ' :: (Json.dumpsL v ++ x)) := by
  unfold Json.dumpsMember
  simp only [List.cons_append, List.append_assoc, List.nil_append]

/-! ### The parser inverts the serializer -/

/-- With enough fuel, `parseValue` applied to input whose whitespace-stripped
form is `dumps j ++ r` returns `(j, r)`, with the analogous statements for
array-element and object-member lists. -/
theorem parse_correct (fuel : Nat) :
    (∀ s (j : Json) r, skipWs s = Json.dumpsL j ++ r → Json.wf j = true →
       jweight j ≤ fuel → numBoundary r → parseValue fuel s = some (j, r))
    ∧ (∀ s (j : Json) (l : List Json) r,
       skipWs s = Json.dumpsL j ++ (Json.dumpsArr l ++ ']' :: r) → Json.wf j = true →
       Json.wfElems l = true → 1 + jweight j + weightElems l ≤ fuel → numBoundary r →
       parseElems fuel s = some (j :: l, r))
    ∧ (∀ s (k : String) (v : Json) (l : List (String × Json)) r,
       skipWs s = Json.dumpsMember k v ++ (Json.dumpsObj l ++ '}' :: r) → Json.wf v = true →
       Json.wfMembers l = true → 1 + jweight v + weightMembers l ≤ fuel → numBoundary r →
       parseMembers fuel s = some ((k, v) :: l, r)) := by
  induction fuel with
  | zero =>
    exact ⟨fun s j r _ _ hw _ => absurd hw (by have := jweight_pos j; omega),
           fun s j l r _ _ _ hw _ => absurd hw (by omega),
           fun s k v l r _ _ _ hw _ => absurd hw (by omega)⟩
  | succ f ih =>
    obtain ⟨ihP, ihQ, ihR⟩ := ih
    refine ⟨?_, ?_, ?_⟩
    · intro s j r hs hwf hw hb
      cases j with
      | null =>
        rw [Json.dumpsL] at hs
        simp only [List.cons_append, List.nil_append] at hs
        exact pv_null f s r hs
      | bool b =>
        cases b with
        | true =>
          rw [Json.dumpsL] at hs
          simp only [List.cons_append, List.nil_append] at hs
          exact pv_true f s r hs
        | false =>
          rw [Json.dumpsL] at hs
          simp only [List.cons_append, List.nil_append] at hs
          exact pv_false f s r hs
      | num n =>
        rw [Json.dumpsL] at hs
        cases n with
        | ofNat m =>
          rw [intChars] at hs
          obtain ⟨c, t, hct, hcd⟩ := natChars_head_digit m
          rw [hct, List.cons_append] at hs
          rw [pv_digit f s (t ++ r) c hs hcd, ← List.cons_append, ← hct]
          have hn := parseNumber_intChars (Int.ofNat m) r hb
          rw [intChars] at hn
          exact hn
        | negSucc m =>
          rw [intChars, List.cons_append] at hs
          rw [pv_neg f s (natChars (m + 1) ++ r) hs]
          have hn := parseNumber_intChars (Int.negSucc m) r hb
          rw [intChars, List.cons_append] at hn
          exact hn
      | str t =>
        rw [Json.dumpsL] at hs
        simp only [List.cons_append, List.append_assoc, List.nil_append] at hs
        rw [pv_str f s _ hs, parseStringBody_escape t.toList r]
        simp only [Option.map_some']
        rw [string_mk_toList]
      | arr l =>
        cases l with
        | nil =>
          rw [Json.dumpsL] at hs
          simp only [List.cons_append, List.nil_append] at hs
          exact pv_arr_nil f s r hs
        | cons j0 l0 =>
          rw [Json.dumpsL] at hs
          simp only [List.cons_append, List.append_assoc, List.nil_append] at hs
          obtain ⟨hwj, hwl⟩ := wf_arr_cons hwf
          obtain ⟨c, t, hct, hg⟩ := dumps_head j0
          have hrest := skipWs_dumps j0 (Json.dumpsArr l0 ++ ']' :: r)
          have hcons : Json.dumpsL j0 ++ (Json.dumpsArr l0 ++ ']' :: r)
              = c :: (t ++ (Json.dumpsArr l0 ++ ']' :: r)) := by
            rw [hct, List.cons_append]
          rw [pv_arr_cons f s _ c (t ++ (Json.dumpsArr l0 ++ ']' :: r)) hs
              (hrest.trans hcons) (goodHead_ne_rbracket hg)]
          have hq := ihQ (c :: (t ++ (Json.dumpsArr l0 ++ ']' :: r))) j0 l0 r
              (by rw [← hcons]; exact hrest) hwj hwl
              (by rw [jweight, weightElems] at hw; omega) hb
          rw [hq]
          simp only [Option.map_some']
      | obj l =>
        cases l with
        | nil =>
          rw [Json.dumpsL] at hs
          simp only [List.cons_append, List.nil_append] at hs
          exact pv_obj_nil f s r hs
        | cons p l0 =>
          obtain ⟨k, v⟩ := p
          rw [Json.dumpsL] at hs
          simp only [List.cons_append, List.append_assoc, List.nil_append] at hs
          obtain ⟨hku, hwv, hwl⟩ := wf_obj_cons hwf
          rw [pv_obj_cons f s _ '"'
              (escapeChars k.toList ++ '"' :: ':' :: ' '
                :: (Json.dumpsL v ++ (Json.dumpsObj l0 ++ '}' :: r))) hs
              (skipWs_not_ws '"' _ (by decide)) (by decide)]
          have hr := ihR ('"' :: (escapeChars k.toList ++ '"' :: ':' :: ' '
                :: (Json.dumpsL v ++ (Json.dumpsObj l0 ++ '}' :: r)))) k v l0 r
              (by rw [dumpsMember_norm]; exact skipWs_not_ws '"' _ (by decide)) hwv hwl
              (by rw [jweight, weightMembers] at hw; omega) hb
          rw [hr]
          simp only [Option.map_some']
          rw [foldInsert_id _ hku]
    · intro s j l r hs hwj hwl hw hb
      have hpv := ihP s j (Json.dumpsArr l ++ ']' :: r) hs hwj (by omega)
          (numBoundary_dumpsArr l r)
      rw [parseElems, hpv]
      show (match skipWs (Json.dumpsArr l ++ ']' :: r) with
            | [] => none
            | c :: r2 =>
              if c = ']' then some ([j], r2)
              else if c = ',' then
                match parseElems f r2 with
                | some (l2, r3) => some (j :: l2, r3)
                | none => none
              else none) = some (j :: l, r)
      cases l with
      | nil =>
        rw [Json.dumpsArr, List.nil_append, skipWs_not_ws ']' r (by decide)]
        rfl
      | cons j2 l2 =>
        obtain ⟨hwj2, hwl2⟩ := wfElems_cons hwl
        simp only [Json.dumpsArr, List.cons_append, List.append_assoc]
        rw [skipWs_not_ws ',' _ (by decide)]
        show (if (',' : Char) = ']' then
                some ([j], ' ' :: (Json.dumpsL j2 ++ (Json.dumpsArr l2 ++ ']' :: r)))
              else if (',' : Char) = ',' then
                match parseElems f (' ' :: (Json.dumpsL j2 ++ (Json.dumpsArr l2 ++ ']' :: r))) with
                | some (l3, r3) => some (j :: l3, r3)
                | none => none
              else none) = some (j :: j2 :: l2, r)
        rw [if_neg (by decide : ¬ (',' : Char) = ']'), if_pos rfl]
        have hq := ihQ (' ' :: (Json.dumpsL j2 ++ (Json.dumpsArr l2 ++ ']' :: r))) j2 l2 r
            (by rw [skipWs_space]; exact skipWs_dumps j2 _) hwj2 hwl2
            (by rw [weightElems] at hw; have := jweight_pos j; omega) hb
        rw [hq]
    · intro s k v l r hs hwv hwl hw hb
      rw [dumpsMember_norm] at hs
      rw [parseMembers, hs]
      show (if ('"' : Char) = '"' then
              match parseStringBody (escapeChars k.toList
                  ++ '"' :: ':' :: ' ' :: (Json.dumpsL v ++ (Json.dumpsObj l ++ '}' :: r))) with
              | none => none
              | some (kchars, r1) =>
                match skipWs r1 with
                | [] => none
                | c2 :: r2 =>
                  if c2 = ':' then
                    match parseValue f r2 with
                    | none => none
                    | some (v', r3) =>
                      match skipWs r3 with
                      | [] => none
                      | c3 :: r4 =>
                        if c3 = '}' then some ([(String.mk kchars, v')], r4)
                        else if c3 = ',' then
                          match parseMembers f r4 with
                          | some (l2, r5) => some ((String.mk kchars, v') :: l2, r5)
                          | none => none
                        else none
                  else none
            else none) = some ((k, v) :: l, r)
      rw [if_pos rfl, parseStringBody_escape k.toList
            (':' :: ' ' :: (Json.dumpsL v ++ (Json.dumpsObj l ++ '}' :: r)))]
      show (match skipWs (':' :: ' ' :: (Json.dumpsL v ++ (Json.dumpsObj l ++ '}' :: r))) with
            | [] => none
            | c2 :: r2 =>
              if c2 = ':' then
                match parseValue f r2 with
                | none => none
                | some (v', r3) =>
                  match skipWs r3 with
                  | [] => none
                  | c3 :: r4 =>
                    if c3 = '}' then some ([(String.mk k.toList, v')], r4)
                    else if c3 = ',' then
                      match parseMembers f r4 with
                      | some (l2, r5) => some ((String.mk k.toList, v') :: l2, r5)
                      | none => none
                    else none
              else none) = some ((k, v) :: l, r)
      rw [skipWs_not_ws ':' _ (by decide)]
      have hpv := ihP (' ' :: (Json.dumpsL v ++ (Json.dumpsObj l ++ '}' :: r))) v
          (Json.dumpsObj l ++ '}' :: r)
          (by rw [skipWs_space]; exact skipWs_dumps v _) hwv (by omega)
          (numBoundary_dumpsObj l r)
      show (if (':' : Char) = ':' then
              match parseValue f (' ' :: (Json.dumpsL v ++ (Json.dumpsObj l ++ '}' :: r))) with
              | none => none
              | some (v', r3) =>
                match skipWs r3 with
                | [] => none
                | c3 :: r4 =>
                  if c3 = '}' then some ([(String.mk k.toList, v')], r4)
                  else if c3 = ',' then
                    match parseMembers f r4 with
                    | some (l2, r5) => some ((String.mk k.toList, v') :: l2, r5)
                    | none => none
                  else none
            else none) = some ((k, v) :: l, r)
      rw [if_pos rfl, hpv]
      show (match skipWs (Json.dumpsObj l ++ '}' :: r) with
            | [] => none
            | c3 :: r4 =>
              if c3 = '}' then some ([(String.mk k.toList, v)], r4)
              else if c3 = ',' then
                match parseMembers f r4 with
                | some (l2, r5) => some ((String.mk k.toList, v) :: l2, r5)
                | none => none
              else none) = some ((k, v) :: l, r)
      cases l with
      | nil =>
        rw [Json.dumpsObj, List.nil_append, skipWs_not_ws '}' r (by decide)]
        show some ([(String.mk k.toList, v)], r) = some ([(k, v)], r)
        rw [string_mk_toList]
      | cons p l2 =>
        obtain ⟨k2, v2⟩ := p
        obtain ⟨hwv2, hwl2⟩ := wfMembers_cons hwl
        simp only [Json.dumpsObj, List.cons_append, List.append_assoc, List.nil_append]
        rw [skipWs_not_ws ',' _ (by decide)]
        show (if (',' : Char) = '}' then
                some ([(String.mk k.toList, v)], ' ' :: '"'
                  :: (escapeChars k2.toList ++ '"' :: ':' :: ' '
                    :: (Json.dumpsL v2 ++ (Json.dumpsObj l2 ++ '}' :: r))))
              else if (',' : Char) = ',' then
                match parseMembers f (' ' :: '"'
                    :: (escapeChars k2.toList ++ '"' :: ':' :: ' '
                      :: (Json.dumpsL v2 ++ (Json.dumpsObj l2 ++ '}' :: r)))) with
                | some (l3, r5) => some ((String.mk k.toList, v) :: l3, r5)
                | none => none
              else none) = some ((k, v) :: (k2, v2) :: l2, r)
        rw [if_neg (by decide : ¬ (',' : Char) = '}'), if_pos rfl]
        have hm2 := ihR (' ' :: '"'
              :: (escapeChars k2.toList ++ '"' :: ':' :: ' '
                :: (Json.dumpsL v2 ++ (Json.dumpsObj l2 ++ '}' :: r)))) k2 v2 l2 r
            (by rw [skipWs_space, dumpsMember_norm]
                exact skipWs_not_ws '"' _ (by decide)) hwv2 hwl2
            (by rw [weightMembers] at hw; have := jweight_pos v; omega) hb
        rw [hm2, string_mk_toList]

/-! ### Fuel bound: the weight of a value is at most its serialized length -/

theorem natChars_length_pos (n : Nat) : 1 ≤ (natChars n).length := by
  obtain ⟨c, t, hct, _⟩ := natChars_head_digit n
  rw [hct]
  simp

theorem intChars_length_pos (n : Int) : 1 ≤ (intChars n).length := by
  cases n with
  | ofNat m => rw [intChars]; exact natChars_length_pos m
  | negSucc m => rw [intChars]; simp

mutual

theorem jweight_le_length : ∀ j : Json, jweight j ≤ (Json.dumpsL j).length
  | .null => by rw [jweight, Json.dumpsL]; simp
  | .bool true => by rw [jweight, Json.dumpsL]; simp
  | .bool false => by rw [jweight, Json.dumpsL]; simp
  | .num n => by rw [jweight, Json.dumpsL]; exact intChars_length_pos n
  | .str s => by rw [jweight, Json.dumpsL]; simp
  | .arr [] => by rw [jweight, weightElems, Json.dumpsL]; simp
  | .arr (j :: l) => by
    rw [jweight, weightElems, Json.dumpsL]
    have h1 := jweight_le_length j
    have h2 := weightElems_le_length l
    simp only [List.length_cons, List.length_append]
    omega
  | .obj [] => by rw [jweight, weightMembers, Json.dumpsL]; simp
  | .obj ((k, v) :: l) => by
    rw [jweight, weightMembers, Json.dumpsL]
    have h1 := jweight_le_length v
    have h2 := weightMembers_le_length l
    simp only [List.length_cons, List.length_append]
    omega

theorem weightElems_le_length : ∀ l : List Json, weightElems l ≤ (Json.dumpsArr l).length
  | [] => by rw [weightElems, Json.dumpsArr]; simp
  | j :: l => by
    rw [weightElems, Json.dumpsArr]
    have h1 := jweight_le_length j
    have h2 := weightElems_le_length l
    simp only [List.length_cons, List.length_append]
    omega

theorem weightMembers_le_length :
    ∀ l : List (String × Json), weightMembers l ≤ (Json.dumpsObj l).length
  | [] => by rw [weightMembers, Json.dumpsObj]; simp
  | (k, v) :: l => by
    rw [weightMembers, Json.dumpsObj]
    have h1 := jweight_le_length v
    have h2 := weightMembers_le_length l
    simp only [List.length_cons, List.length_append]
    omega

end

/-! ### `json.dumps` with `ensure_ascii=True` emits only ASCII characters -/

theorem all_ascii (l : List Char) (h : l.all (fun c => decide (c.toNat < 128)) = true) :
    ∀ c ∈ l, c.toNat < 128 := by
  intro c hc
  have := List.all_eq_true.mp h c hc
  simpa using this

theorem digitChar_ascii (n : Nat) : (digitChar n).toNat < 128 := by
  unfold digitChar
  split <;> decide

theorem hexDigitChar_ascii (n : Nat) : (hexDigitChar n).toNat < 128 := by
  unfold hexDigitChar
  split <;> decide

theorem natChars_ascii (n : Nat) : ∀ c ∈ natChars n, c.toNat < 128 := by
  intro c hc
  obtain ⟨h1, h2⟩ := toNat_of_isDigitChar (natChars_digits n c hc)
  omega

theorem intChars_ascii (n : Int) : ∀ c ∈ intChars n, c.toNat < 128 := by
  cases n with
  | ofNat m => rw [intChars]; exact natChars_ascii m
  | negSucc m =>
    rw [intChars]
    intro c hc
    rcases List.mem_cons.mp hc with h | h
    · subst h; decide
    · exact natChars_ascii _ c h

theorem hex4_ascii (n : Nat) : ∀ c ∈ hex4 n, c.toNat < 128 := by
  intro c hc
  simp only [hex4, List.mem_cons, List.not_mem_nil, or_false] at hc
  rcases hc with h | h | h | h <;> (subst h; apply hexDigitChar_ascii)

theorem escapeChar_ascii (c : Char) : ∀ e ∈ escapeChar c, e.toNat < 128 := by
  intro e he
  unfold escapeChar at he
  split at he
  · simp only [List.mem_cons, List.not_mem_nil, or_false] at he
    rcases he with h | h <;> (subst h; decide)
  · split at he
    · simp only [List.mem_cons, List.not_mem_nil, or_false] at he
      rcases he with h | h <;> (subst h; decide)
    · split at he
      · simp only [List.mem_cons, List.not_mem_nil, or_false] at he
        rcases he with h | h <;> (subst h; decide)
      · split at he
        · simp only [List.mem_cons, List.not_mem_nil, or_false] at he
          rcases he with h | h <;> (subst h; decide)
        · split at he
          · simp only [List.mem_cons, List.not_mem_nil, or_false] at he
            rcases he with h | h <;> (subst h; decide)
          · split at he
            · simp only [List.mem_cons, List.not_mem_nil, or_false] at he
              rcases he with h | h <;> (subst h; decide)
            · split at he
              · simp only [List.mem_cons, List.not_mem_nil, or_false] at he
                rcases he with h | h <;> (subst h; decide)
              · rename_i h1 h2 h3 h4 h5 h6 h7
                split at he
                · rename_i hrange
                  simp only [List.mem_cons, List.not_mem_nil, or_false] at he
                  subst he
                  omega
                · split at he
                  · simp only [List.mem_cons, List.mem_append] at he
                    rcases he with h | h | h
                    · subst h; decide
                    · subst h; decide
                    · exact hex4_ascii _ e h
                  · simp only [List.mem_cons, List.mem_append] at he
                    rcases he with (h | h | h) | (h | h | h)
                    · subst h; decide
                    · subst h; decide
                    · exact hex4_ascii _ e h
                    · subst h; decide
                    · subst h; decide
                    · exact hex4_ascii _ e h

theorem escapeChars_ascii (s : List Char) : ∀ e ∈ escapeChars s, e.toNat < 128 := by
  induction s with
  | nil => intro e he; exact absurd he (List.not_mem_nil e)
  | cons c t ih =>
    intro e he
    rw [escapeChars] at he
    rcases List.mem_append.mp he with h | h
    · exact escapeChar_ascii c e h
    · exact ih e h

mutual

theorem dumpsL_ascii : ∀ j : Json, ∀ c ∈ Json.dumpsL j, c.toNat < 128
  | .null => by rw [Json.dumpsL]; exact all_ascii _ (by decide)
  | .bool true => by rw [Json.dumpsL]; exact all_ascii _ (by decide)
  | .bool false => by rw [Json.dumpsL]; exact all_ascii _ (by decide)
  | .num n => by rw [Json.dumpsL]; exact intChars_ascii n
  | .str s => by
    rw [Json.dumpsL]
    intro c hc
    rcases List.mem_cons.mp hc with h | h
    · subst h; decide
    · rcases List.mem_append.mp h with h | h
      · exact escapeChars_ascii _ c h
      · simp only [List.mem_cons, List.not_mem_nil, or_false] at h
        subst h; decide
  | .arr [] => by rw [Json.dumpsL]; exact all_ascii _ (by decide)
  | .arr (j :: l) => by
    rw [Json.dumpsL]
    intro c hc
    rcases List.mem_cons.mp hc with h | h
    · subst h; decide
    · rcases List.mem_append.mp h with h2 | h2
      · rcases List.mem_append.mp h2 with h3 | h3
        · exact dumpsL_ascii j c h3
        · exact dumpsArr_ascii l c h3
      · simp only [List.mem_cons, List.not_mem_nil, or_false] at h2
        subst h2; decide
  | .obj [] => by rw [Json.dumpsL]; exact all_ascii _ (by decide)
  | .obj ((k, v) :: l) => by
    rw [Json.dumpsL]
    intro c hc
    rcases List.mem_cons.mp hc with h | h
    · subst h; decide
    · rcases List.mem_append.mp h with h2 | h2
      · rcases List.mem_append.mp h2 with h3 | h3
        · rcases List.mem_append.mp h3 with h4 | h4
          · rcases List.mem_cons.mp h4 with h5 | h5
            · subst h5; decide
            · rcases List.mem_append.mp h5 with h6 | h6
              · exact escapeChars_ascii _ c h6
              · simp only [List.mem_cons, List.not_mem_nil, or_false] at h6
                rcases h6 with h7 | h7 | h7 <;> (subst h7; decide)
          · exact dumpsL_ascii v c h4
        · exact dumpsObj_ascii l c h3
      · simp only [List.mem_cons, List.not_mem_nil, or_false] at h2
        subst h2; decide

theorem dumpsArr_ascii : ∀ l : List Json, ∀ c ∈ Json.dumpsArr l, c.toNat < 128
  | [] => by rw [Json.dumpsArr]; intro c hc; exact absurd hc (List.not_mem_nil c)
  | j :: l => by
    rw [Json.dumpsArr]
    intro c hc
    rcases List.mem_cons.mp hc with h | h
    · subst h; decide
    · rcases List.mem_cons.mp h with h2 | h2
      · subst h2; decide
      · rcases List.mem_append.mp h2 with h3 | h3
        · exact dumpsL_ascii j c h3
        · exact dumpsArr_ascii l c h3

theorem dumpsObj_ascii : ∀ l : List (String × Json), ∀ c ∈ Json.dumpsObj l, c.toNat < 128
  | [] => by rw [Json.dumpsObj]; intro c hc; exact absurd hc (List.not_mem_nil c)
  | (k, v) :: l => by
    rw [Json.dumpsObj]
    intro c hc
    rcases List.mem_cons.mp hc with h | h
    · subst h; decide
    · rcases List.mem_cons.mp h with h2 | h2
      · subst h2; decide
      · rcases List.mem_append.mp h2 with h3 | h3
        · rcases List.mem_append.mp h3 with h4 | h4
          · rcases List.mem_cons.mp h4 with h5 | h5
            · subst h5; decide
            · rcases List.mem_append.mp h5 with h6 | h6
              · exact escapeChars_ascii _ c h6
              · simp only [List.mem_cons, List.not_mem_nil, or_false] at h6
                rcases h6 with h7 | h7 | h7 <;> (subst h7; decide)
          · exact dumpsL_ascii v c h4
        · exact dumpsObj_ascii l c h3

end

/-! ### UTF-8 round trip on ASCII text -/

theorem utf8Encode_ascii (cs : List Char) (h : ∀ c ∈ cs, c.toNat < 128) :
    utf8Encode cs = cs.map Char.toNat := by
  induction cs with
  | nil => rfl
  | cons c t ih =>
    rw [utf8Encode, List.map_cons, ← ih (fun x hx => h x (List.mem_cons_of_mem _ hx))]
    have hc := h c (List.mem_cons_self _ _)
    have he : utf8EncodeChar c = [c.toNat] := by
      simp only [utf8EncodeChar]
      rw [if_pos hc]
    rw [he]
    simp

theorem utf8DecodeF_ascii (cs : List Char) : ∀ fuel, cs.length < fuel →
    (∀ c ∈ cs, c.toNat < 128) → utf8DecodeF fuel (cs.map Char.toNat) = some cs := by
  induction cs with
  | nil =>
    intro fuel hf _
    obtain ⟨g, rfl⟩ : ∃ g, fuel = g + 1 := ⟨fuel - 1, by omega⟩
    rw [List.map_nil, utf8DecodeF]
  | cons c t ih =>
    intro fuel hf h
    obtain ⟨g, rfl⟩ : ∃ g, fuel = g + 1 := ⟨fuel - 1, by omega⟩
    have hc := h c (List.mem_cons_self _ _)
    rw [List.map_cons, utf8DecodeF.eq_def]
    simp only [if_pos hc]
    rw [ih g (by rw [List.length_cons] at hf; omega)
        (fun x hx => h x (List.mem_cons_of_mem _ hx))]
    simp

/-- `decode("utf-8")` inverts `encode("utf-8")` on ASCII text. -/
theorem utf8_roundtrip_ascii (cs : List Char) (h : ∀ c ∈ cs, c.toNat < 128) :
    utf8Decode (utf8Encode cs) = some cs := by
  rw [utf8Encode_ascii cs h]
  unfold utf8Decode
  exact utf8DecodeF_ascii cs _ (by rw [List.length_map]; omega) h

/-! ### Base64 round trip -/

theorem b64Char_spec : ∀ n, n < 64 → b64Index (b64Char n) = some n ∧ b64Char n ≠ '=' := by
  decide

/-- `base64.b64decode` inverts `base64.b64encode` on byte lists. -/
theorem b64_roundtrip (l : List Nat) (h : ∀ b ∈ l, b < 256) :
    b64decodeL (b64encodeL l) = some l := by
  induction l using b64encodeL.induct with
  | case1 => rfl
  | case2 a =>
    have ha := h a (List.mem_cons_self _ _)
    have h1 := (b64Char_spec (a / 4) (by omega)).1
    have h2 := (b64Char_spec (a % 4 * 16) (by omega)).1
    rw [b64encodeL, b64decodeL, h1, h2]
    show some [a / 4 * 4 + a % 4 * 16 / 16] = some [a]
    have e1 : a / 4 * 4 + a % 4 * 16 / 16 = a := by omega
    rw [e1]
  | case3 a b =>
    have ha := h a (List.mem_cons_self _ _)
    have hb := h b (List.mem_cons_of_mem _ (List.mem_cons_self _ _))
    have h1 := (b64Char_spec (a / 4) (by omega)).1
    have h2 := (b64Char_spec (a % 4 * 16 + b / 16) (by omega)).1
    have h3 := (b64Char_spec (b % 16 * 4) (by omega)).1
    have hne3 := (b64Char_spec (b % 16 * 4) (by omega)).2
    rw [b64encodeL, b64decodeL, h1, h2]
    show (if b64Char (b % 16 * 4) = '=' then
            if ('=' : Char) = '=' ∧ ([] : List Char) = [] then
              some [a / 4 * 4 + (a % 4 * 16 + b / 16) / 16]
            else none
          else
            match b64Index (b64Char (b % 16 * 4)) with
            | some s3 =>
              if ('=' : Char) = '=' then
                if ([] : List Char) = [] then
                  some [a / 4 * 4 + (a % 4 * 16 + b / 16) / 16,
                        (a % 4 * 16 + b / 16) % 16 * 16 + s3 / 4]
                else none
              else
                match b64Index '=' with
                | some s4 =>
                  Option.map (fun t => (a / 4 * 4 + (a % 4 * 16 + b / 16) / 16)
                      :: ((a % 4 * 16 + b / 16) % 16 * 16 + s3 / 4)
                      :: (s3 % 4 * 64 + s4) :: t)
                    (b64decodeL [])
                | none => none
            | none => none) = some [a, b]
    rw [if_neg hne3, h3]
    show some [a / 4 * 4 + (a % 4 * 16 + b / 16) / 16,
               (a % 4 * 16 + b / 16) % 16 * 16 + b % 16 * 4 / 4] = some [a, b]
    have e1 : a / 4 * 4 + (a % 4 * 16 + b / 16) / 16 = a := by omega
    have e2 : (a % 4 * 16 + b / 16) % 16 * 16 + b % 16 * 4 / 4 = b := by omega
    rw [e1, e2]
  | case4 a b c rest ih =>
    have ha := h a (List.mem_cons_self _ _)
    have hb := h b (List.mem_cons_of_mem _ (List.mem_cons_self _ _))
    have hc := h c (List.mem_cons_of_mem _ (List.mem_cons_of_mem _ (List.mem_cons_self _ _)))
    have hrest : ∀ x ∈ rest, x < 256 := fun x hx =>
      h x (List.mem_cons_of_mem _ (List.mem_cons_of_mem _ (List.mem_cons_of_mem _ hx)))
    have h1 := (b64Char_spec (a / 4) (by omega)).1
    have h2 := (b64Char_spec (a % 4 * 16 + b / 16) (by omega)).1
    have h3 := (b64Char_spec (b % 16 * 4 + c / 64) (by omega)).1
    have hne3 := (b64Char_spec (b % 16 * 4 + c / 64) (by omega)).2
    have h4 := (b64Char_spec (c % 64) (by omega)).1
    have hne4 := (b64Char_spec (c % 64) (by omega)).2
    rw [b64encodeL, b64decodeL, h1, h2]
    show (if b64Char (b % 16 * 4 + c / 64) = '=' then
            if b64Char (c % 64) = '=' ∧ b64encodeL rest = [] then
              some [a / 4 * 4 + (a % 4 * 16 + b / 16) / 16]
            else none
          else
            match b64Index (b64Char (b % 16 * 4 + c / 64)) with
            | some s3 =>
              if b64Char (c % 64) = '=' then
                if b64encodeL rest = [] then
                  some [a / 4 * 4 + (a % 4 * 16 + b / 16) / 16,
                        (a % 4 * 16 + b / 16) % 16 * 16 + s3 / 4]
                else none
              else
                match b64Index (b64Char (c % 64)) with
                | some s4 =>
                  Option.map (fun t => (a / 4 * 4 + (a % 4 * 16 + b / 16) / 16)
                      :: ((a % 4 * 16 + b / 16) % 16 * 16 + s3 / 4)
                      :: (s3 % 4 * 64 + s4) :: t)
                    (b64decodeL (b64encodeL rest))
                | none => none
            | none => none) = some (a :: b :: c :: rest)
    rw [if_neg hne3, h3]
    show (if b64Char (c % 64) = '=' then
            if b64encodeL rest = [] then
              some [a / 4 * 4 + (a % 4 * 16 + b / 16) / 16,
                    (a % 4 * 16 + b / 16) % 16 * 16 + (b % 16 * 4 + c / 64) / 4]
            else none
          else
            match b64Index (b64Char (c % 64)) with
            | some s4 =>
              Option.map (fun t => (a / 4 * 4 + (a % 4 * 16 + b / 16) / 16)
                  :: ((a % 4 * 16 + b / 16) % 16 * 16 + (b % 16 * 4 + c / 64) / 4)
                  :: ((b % 16 * 4 + c / 64) % 4 * 64 + s4) :: t)
                (b64decodeL (b64encodeL rest))
            | none => none) = some (a :: b :: c :: rest)
    rw [if_neg hne4, h4, ih hrest]
    show some ((a / 4 * 4 + (a % 4 * 16 + b / 16) / 16)
        :: ((a % 4 * 16 + b / 16) % 16 * 16 + (b % 16 * 4 + c / 64) / 4)
        :: ((b % 16 * 4 + c / 64) % 4 * 64 + c % 64) :: rest) = some (a :: b :: c :: rest)
    have e1 : a / 4 * 4 + (a % 4 * 16 + b / 16) / 16 = a := by omega
    have e2 : (a % 4 * 16 + b / 16) % 16 * 16 + (b % 16 * 4 + c / 64) / 4 = b := by omega
    have e3 : (b % 16 * 4 + c / 64) % 4 * 64 + c % 64 = c := by omega
    rw [e1, e2, e3]

/-! ### `json.loads` inverts `json.dumps` -/

theorem skipWs_dumps_nil (j : Json) : skipWs (Json.dumpsL j) = Json.dumpsL j := by
  obtain ⟨c, t, hct, hg⟩ := dumps_head j
  rw [hct]
  exact skipWs_not_ws c t (goodHead_not_ws hg)

theorem loads_dumps (j : Json) (h : Json.wf j = true) :
    loadsAux (Json.dumpsL j) = some j := by
  have hp := (parse_correct ((Json.dumpsL j).length + 1)).1 (Json.dumpsL j) j []
      (by rw [List.append_nil]; exact skipWs_dumps_nil j) h
      (by have := jweight_le_length j; omega) trivial
  unfold loadsAux
  rw [hp]
  rfl

/-! ## Claim C7 -/

/-- Claim C7: the `body` query-parameter encoding applied by `/answer`
(`base64.b64encode(json.dumps(body).encode("utf-8"))`, lines 360-364) and the
decoding applied by the WebSocket handler (base64 decode, UTF-8 decode,
`json.loads`, lines 696-707) form an exact round trip: for every well-formed
JSON body payload the handler recovers the original payload. -/
theorem c7_body_roundtrip (j : Json) (h : Json.wf j = true) :
    wsDecodeBody (encodeBodyParam j) = j := by
  have hascii := dumpsL_ascii j
  have hbytes : ∀ b ∈ utf8Encode j.dumpsL, b < 256 := by
    rw [utf8Encode_ascii _ hascii]
    intro b hb
    obtain ⟨c, hc, rfl⟩ := List.mem_map.mp hb
    have := hascii c hc
    omega
  have h1 : b64decodeL (b64encodeL (utf8Encode j.dumpsL)) = some (utf8Encode j.dumpsL) :=
    b64_roundtrip _ hbytes
  have h2 : utf8Decode (utf8Encode j.dumpsL) = some j.dumpsL :=
    utf8_roundtrip_ascii _ hascii
  have h3 : loadsAux j.dumpsL = some j := loads_dumps j h
  show (match b64decodeL (b64encodeL (utf8Encode j.dumpsL)) with
        | none => Json.obj []
        | some bytes =>
          match utf8Decode bytes with
          | none => Json.obj []
          | some chars =>
            match loadsAux chars with
            | none => Json.obj []
            | some j2 => j2) = j
  simp only [h1, h2, h3]

/-- Witness for C7: the round trip holds at the concrete payload
`{"x": 1}` named by the claim. -/
theorem c7_body_roundtrip_witness :
    Json.wf c7Payload = true ∧ wsDecodeBody (encodeBodyParam c7Payload) = c7Payload :=
  ⟨by decide, c7_body_roundtrip c7Payload (by decide)⟩

end Vobiz
